import Mathlib

/-!
Real-time connection hub (`internal/websocket/hub.go`).

A shallow embedding of the hub of the WhatsApp CRM backend: the registry
`organization -> user -> *Client`, the three operations the hub loop serialises
(`registerClient`, `unregisterClient`, `broadcastMessage`), the non-blocking
submission `Broadcast`, and `countClients` / `GetClientCount`.

Go features and how they are rendered:

* `map[K]V` is `GoMap K V`, a key-duplicate-free association list; `range` over a
  map visits the entries in list order (Go leaves the order unspecified);
* `*Client` is a `ClientRef` (pointer identity) into a heap `mem` of `Client` records;
* `chan T` is `Chan T`: buffer, capacity and closed flag; `close` of a closed
  channel and a send on a closed channel panic, so the operations return
  `Except Panic _`;
* the logger is an append-only list of structured events.

Next to the hub the file embeds the upgrade handler of
`internal/handlers/websocket.go` (`WebSocketHandler`, `validateWSToken`, the JWT
library being a parameter) and two helpers of `internal/handlers/templates.go`:
`normalizeTemplateName`, on strings as sequences of runes, and
`extractExamplesForComponent`, on `interface{}` values as a tree of strings,
numbers, slices and maps, with its sorting loops on positions of the slice.
-/

namespace WhatsappCRM

/-! ## Identifiers, bytes, channels -/

/-- A `uuid.UUID` (a 16-byte value), identified with its numeric value. -/
abbrev UUID := Nat

/-- The zero UUID, `uuid.Nil`. -/
def uuidNil : UUID := 0

/-- The address of a `Client` object: `*Client` values compare by address. -/
abbrev ClientRef := Nat

/-- A Go `[]byte`. -/
abbrev Bytes := List Nat

/-- The run-time panics the hub code can raise on its channels. -/
inductive Panic where
  | closeOfClosedChannel
  | sendOnClosedChannel
  deriving DecidableEq, Repr

/-- A buffered Go channel: pending elements (head is the oldest), capacity, closed flag. -/
structure Chan (α : Type) where
  buf : List α
  cap : Nat
  closed : Bool
  deriving DecidableEq, Repr

namespace Chan

variable {α : Type}

/-- The channel returned by `make(chan T, n)`. -/
def make (n : Nat) : Chan α := { buf := [], cap := n, closed := false }

/-- The builtin `close(ch)`: panics on a channel that is already closed. -/
def close (ch : Chan α) : Except Panic (Chan α) :=
  if ch.closed then .error .closeOfClosedChannel else .ok { ch with closed := true }

/-- The channel is at capacity: a send would have to wait. -/
def full (ch : Chan α) : Bool := decide (ch.cap ≤ ch.buf.length)

/-- The statement `select { case ch <- v: ... default: ... }`: the send case panics on a
closed channel, is taken when the buffer has room, and otherwise the default case runs.
The Boolean tells whether the value was sent. -/
def trySend (ch : Chan α) (v : α) : Except Panic (Chan α × Bool) :=
  if ch.closed then .error .sendOnClosedChannel
  else if ch.buf.length < ch.cap then .ok ({ ch with buf := ch.buf ++ [v] }, true)
  else .ok (ch, false)

end Chan

/-! ## Go maps -/

/-- The value stored under `k` in an association list: that of the first entry with key `k`. -/
def assocFind {κ ν : Type} [DecidableEq κ] (l : List (κ × ν)) (k : κ) : Option ν :=
  (l.find? (fun e => decide (e.1 = k))).map Prod.snd

/-- A Go `map[κ]ν`: an association list without duplicate keys. -/
structure GoMap (κ ν : Type) [DecidableEq κ] where
  entries : List (κ × ν)
  nodupKeys : (entries.map Prod.fst).Nodup

namespace GoMap

variable {κ ν : Type} [DecidableEq κ]

/-- The empty map of `make(map[κ]ν)`. -/
def empty : GoMap κ ν := ⟨[], List.nodup_nil⟩

/-- The two-valued index expression `v, ok := m[k]`. -/
def lookup (m : GoMap κ ν) (k : κ) : Option ν := assocFind m.entries k

/-- The builtin `len(m)`. -/
def len (m : GoMap κ ν) : Nat := m.entries.length

/-- The builtin `delete(m, k)`. -/
def remove (m : GoMap κ ν) (k : κ) : GoMap κ ν :=
  ⟨m.entries.filter (fun e => decide (e.1 ≠ k)),
    (List.filter_sublist m.entries).map Prod.fst |>.nodup m.nodupKeys⟩

/-- The assignment `m[k] = v`: overwrites the value of a present key, adds a new entry
otherwise. -/
def store (m : GoMap κ ν) (k : κ) (v : ν) : GoMap κ ν :=
  if hk : k ∈ m.entries.map Prod.fst then
    ⟨m.entries.map (fun e => if e.1 = k then (k, v) else e), by
      have hkeys : (m.entries.map (fun e => if e.1 = k then (k, v) else e)).map Prod.fst
          = m.entries.map Prod.fst := by
        rw [List.map_map]
        apply List.map_congr_left
        intro e _
        by_cases he : e.1 = k <;> simp [he]
      rw [hkeys]; exact m.nodupKeys⟩
  else
    ⟨m.entries ++ [(k, v)], by
      rw [List.map_append, List.nodup_append]
      refine ⟨m.nodupKeys, by simp, ?_⟩
      intro a ha hb
      simp only [List.map_cons, List.map_nil, List.mem_singleton] at hb
      exact hk (hb ▸ ha)⟩

end GoMap

/-! ## Data model -/

/-- Modelled from the spec: the declaration of the `Client` struct is not among the files
at hand. The fields are the ones `hub.go` reads: the identity `(organizationID, userID)`,
the optional current focus `currentContact` (a `*uuid.UUID`, `none` for `nil`) and the
outbound mailbox `send` (a `chan []byte`). -/
structure Client where
  organizationID : UUID
  userID : UUID
  currentContact : Option UUID
  send : Chan Bytes
  deriving DecidableEq, Repr

/-- Modelled from the spec: the declaration of `BroadcastMessage` is not among the files
at hand. The fields are the ones `hub.go` uses: target organization, contact scope
(`uuid.Nil` when unset, the zero value of the field) and the payload, of a type `M`
standing for `WSMessage`. -/
structure BroadcastMessage (M : Type) where
  OrgID : UUID
  ContactID : UUID
  Message : M
  deriving DecidableEq, Repr

/-- Severity of a log event (`log.Info`, `log.Warn`, `log.Error`). -/
inductive LogLevel where
  | info
  | warn
  | error
  deriving DecidableEq, Repr

/-- A value attached to a key of a structured log event. -/
inductive LogValue where
  | id (u : UUID)
  | count (n : Nat)
  | err (e : String)
  deriving DecidableEq, Repr

/-- One call of the logger: level, message, key-value pairs. -/
structure LogEvent where
  level : LogLevel
  msg : String
  fields : List (String × LogValue)
  deriving DecidableEq, Repr

/-- The `Hub` struct together with the memory its pointers refer to.
`clients` maps organization ID to user ID to client; `broadcast` is the buffered
submission channel; `log` collects what the logger was given; `mem` holds the `Client`
objects. The `register` and `unregister` channels are unbuffered and hold no state: a
send on them is the hand-over of the client to the loop. -/
structure Hub (M : Type) where
  clients : GoMap UUID (GoMap UUID ClientRef)
  broadcast : Chan (BroadcastMessage M)
  log : List LogEvent
  mem : ClientRef → Client

/-- The assignment of a new value to the object at address `c`. -/
def setClient (mem : ClientRef → Client) (c : ClientRef) (v : Client) : ClientRef → Client :=
  fun p => if p = c then v else mem p

/-- The statement `close(c.send)` on the object at address `c`. -/
def closeSend (mem : ClientRef → Client) (c : ClientRef) : Except Panic (ClientRef → Client) :=
  match (mem c).send.close with
  | .error p => .error p
  | .ok ch => .ok (setClient mem c { mem c with send := ch })

/-! ## Operations of `hub.go` -/

section Operations

variable {M : Type}

/-- `NewHub`: empty registry, submission channel of capacity 256. -/
def NewHub (mem : ClientRef → Client) : Hub M :=
  { clients := GoMap.empty, broadcast := Chan.make 256, log := [], mem := mem }

/-- `countClients`: the sum of the sizes of the per-organization maps. -/
def countClients (h : Hub M) : Nat :=
  h.clients.entries.foldl (fun count e => count + e.2.len) 0

/-- `GetClientCount`: `countClients` under the read lock. -/
def GetClientCount (h : Hub M) : Nat := countClients h

/-- The log call that ends `registerClient` and `unregisterClient`. -/
def logClient (text : String) (h : Hub M) (client : ClientRef) : Hub M :=
  { h with log := h.log ++ [LogEvent.mk .info text
      [("user_id", .id (h.mem client).userID),
       ("org_id", .id (h.mem client).organizationID),
       ("total_clients", .count (countClients h))]] }

/-- `registerClient`: creates the organization map when absent, closes the mailbox of a
connection already stored for the same user, stores the client and logs. -/
def registerClient (h : Hub M) (client : ClientRef) : Except Panic (Hub M) :=
  let orgID := (h.mem client).organizationID
  let userID := (h.mem client).userID
  let orgClients := (h.clients.lookup orgID).getD GoMap.empty
  let closed : Except Panic (ClientRef → Client) :=
    match orgClients.lookup userID with
    | some existing => closeSend h.mem existing
    | none => .ok h.mem
  match closed with
  | .error p => .error p
  | .ok mem =>
    .ok (logClient "WebSocket client registered"
      { h with clients := h.clients.store orgID (orgClients.store userID client), mem := mem }
      client)

/-- `unregisterClient`: when `client` is the connection stored for its identity, deletes
the entry, closes the mailbox and deletes the organization map if it became empty;
logs in every case. -/
def unregisterClient (h : Hub M) (client : ClientRef) : Except Panic (Hub M) :=
  let orgID := (h.mem client).organizationID
  let userID := (h.mem client).userID
  let removed : Except Panic (Hub M) :=
    match h.clients.lookup orgID with
    | some orgClients =>
      match orgClients.lookup userID with
      | some existing =>
        if existing = client then
          match closeSend h.mem client with
          | .error p => .error p
          | .ok mem =>
            let orgClients1 := orgClients.remove userID
            .ok { h with
              clients := if orgClients1.len = 0 then h.clients.remove orgID
                         else h.clients.store orgID orgClients1,
              mem := mem }
        else .ok h
      | none => .ok h
    | none => .ok h
  match removed with
  | .error p => .error p
  | .ok h1 => .ok (logClient "WebSocket client unregistered" h1 client)

/-- The filter of the fan-out loop: `msg.ContactID != uuid.Nil && client.currentContact
!= nil && *client.currentContact != msg.ContactID`, the condition of `continue`. -/
def skipsClient (contactID : UUID) (currentContact : Option UUID) : Bool :=
  contactID != uuidNil &&
    (match currentContact with
     | some viewing => viewing != contactID
     | none => false)

/-- The body of the fan-out loop for one client: filter, then non-blocking send with a
warning when the mailbox is full. -/
def sendToClient (contactID : UUID) (data : Bytes) (h : Hub M) (client : ClientRef) :
    Except Panic (Hub M) :=
  if skipsClient contactID (h.mem client).currentContact then .ok h
  else
    match (h.mem client).send.trySend data with
    | .error p => .error p
    | .ok (ch, true) => .ok { h with mem := setClient h.mem client { h.mem client with send := ch } }
    | .ok (_, false) =>
      .ok { h with log := h.log ++ [LogEvent.mk .warn "Client send buffer full, skipping"
              [("user_id", .id (h.mem client).userID),
               ("org_id", .id (h.mem client).organizationID)]] }

/-- The loop `for _, client := range orgClients`. -/
def fanOut (contactID : UUID) (data : Bytes) : List (UUID × ClientRef) → Hub M → Except Panic (Hub M)
  | [], h => .ok h
  | e :: rest, h =>
    match sendToClient contactID data h e.2 with
    | .error p => .error p
    | .ok h1 => fanOut contactID data rest h1

/-- `broadcastMessage`: nothing when the organization has no map; one `json.Marshal`
(the parameter `marshal`), whose error is logged and ends the call; then the fan-out. -/
def broadcastMessage (marshal : M → Except String Bytes) (h : Hub M) (msg : BroadcastMessage M) :
    Except Panic (Hub M) :=
  match h.clients.lookup msg.OrgID with
  | none => .ok h
  | some orgClients =>
    match marshal msg.Message with
    | .error err =>
      .ok { h with log := h.log ++ [LogEvent.mk .error "Failed to marshal broadcast message"
              [("error", .err err)]] }
    | .ok data => fanOut msg.ContactID data orgClients.entries h

/-- `Broadcast`: non-blocking send on the submission channel, a warning when it is full. -/
def Broadcast (h : Hub M) (msg : BroadcastMessage M) : Except Panic (Hub M) :=
  match h.broadcast.trySend msg with
  | .error p => .error p
  | .ok (ch, true) => .ok { h with broadcast := ch }
  | .ok (_, false) =>
    .ok { h with log := h.log ++ [LogEvent.mk .warn "Broadcast channel full, dropping message" []] }

/-- `BroadcastToOrg`: an envelope whose `ContactID` keeps its zero value. -/
def BroadcastToOrg (h : Hub M) (orgID : UUID) (msg : M) : Except Panic (Hub M) :=
  Broadcast h { OrgID := orgID, ContactID := uuidNil, Message := msg }

/-- `BroadcastToContact`: an envelope scoped to a contact. -/
def BroadcastToContact (h : Hub M) (orgID contactID : UUID) (msg : M) : Except Panic (Hub M) :=
  Broadcast h { OrgID := orgID, ContactID := contactID, Message := msg }

/-- What one iteration of the loop of `Run` can receive, and what the callers do. -/
inductive Event (M : Type) where
  | register (client : ClientRef)
  | unregister (client : ClientRef)
  | submit (msg : BroadcastMessage M)
  | deliver

/-- One event of the hub: `register` and `unregister` are the hand-over of a client by
`Register` / `Unregister` to the matching case of `Run`; `submit` is a call of
`Broadcast`; `deliver` is the case of `Run` that receives the oldest pending envelope
and runs `broadcastMessage` (with nothing pending the case is not ready and nothing
happens). -/
def step (marshal : M → Except String Bytes) (h : Hub M) : Event M → Except Panic (Hub M)
  | .register client => registerClient h client
  | .unregister client => unregisterClient h client
  | .submit msg => Broadcast h msg
  | .deliver =>
    match h.broadcast.buf with
    | [] => .ok h
    | msg :: rest =>
      broadcastMessage marshal { h with broadcast := { h.broadcast with buf := rest } } msg

/-- The hub after a sequence of events, or the panic that stopped it. -/
def run (marshal : M → Except String Bytes) : Hub M → List (Event M) → Except Panic (Hub M)
  | h, [] => .ok h
  | h, ev :: rest =>
    match step marshal h ev with
    | .error p => .error p
    | .ok h1 => run marshal h1 rest

/-! ## Notions the properties are stated with -/

/-- The identity `(organizationID, userID)` of the connection at address `c`. -/
def identity (mem : ClientRef → Client) (c : ClientRef) : UUID × UUID :=
  ((mem c).organizationID, (mem c).userID)

/-- The nested index `clients[org][user]`. -/
def registryFind (clients : GoMap UUID (GoMap UUID ClientRef)) (org user : UUID) :
    Option ClientRef :=
  match clients.lookup org with
  | some orgClients => orgClients.lookup user
  | none => none

/-- The connection the registry holds for `(org, user)`: `h.clients[org][user]`. -/
def registeredAt (h : Hub M) (org user : UUID) : Option ClientRef :=
  registryFind h.clients org user

/-- Every registry entry is filed under the identity of the connection it holds. -/
def keysAgree (h : Hub M) : Prop :=
  ∀ e ∈ h.clients.entries, ∀ e1 ∈ e.2.entries, identity h.mem e1.2 = (e.1, e1.1)

instance (h : Hub M) : Decidable (keysAgree h) := by
  unfold keysAgree; infer_instance

/-- Every connection in the registry has an open mailbox. -/
def registeredOpen (h : Hub M) : Prop :=
  ∀ e ∈ h.clients.entries, ∀ e1 ∈ e.2.entries, (h.mem e1.2).send.closed = false

instance (h : Hub M) : Decidable (registeredOpen h) := by
  unfold registeredOpen; infer_instance

/-- No organization of the registry has an empty connection map. -/
def noEmptyOrg (h : Hub M) : Prop :=
  ∀ e ∈ h.clients.entries, e.2.len ≠ 0

instance (h : Hub M) : Decidable (noEmptyOrg h) := by
  unfold noEmptyOrg; infer_instance

/-- The registry after `clients[org][user] = client`, the organization map being created
when absent. -/
def registryStore (clients : GoMap UUID (GoMap UUID ClientRef)) (org user : UUID)
    (client : ClientRef) : GoMap UUID (GoMap UUID ClientRef) :=
  clients.store org (((clients.lookup org).getD GoMap.empty).store user client)

/-- The registry after the entry of `(org, user)` is deleted, the organization map being
deleted with it when it becomes empty. -/
def registryDrop (clients : GoMap UUID (GoMap UUID ClientRef)) (org user : UUID) :
    GoMap UUID (GoMap UUID ClientRef) :=
  match clients.lookup org with
  | some orgClients =>
    if (orgClients.remove user).len = 0 then clients.remove org
    else clients.store org (orgClients.remove user)
  | none => clients

/-- The sum of the sizes of the organization maps of a registry. -/
def registrySize (clients : GoMap UUID (GoMap UUID ClientRef)) : Nat :=
  (clients.entries.map (fun e => e.2.len)).sum

/-- What a fan-out with scope `contactID` makes of a client it visits: the payload at
the tail of the mailbox unless the client is filtered out or its mailbox is full. -/
def delivered (contactID : UUID) (data : Bytes) (c : Client) : Client :=
  if skipsClient contactID c.currentContact then c
  else if c.send.buf.length < c.send.cap then
    { c with send := { c.send with buf := c.send.buf ++ [data] } }
  else c

/-- The client `c` after `close(c.send)`. -/
def closeMailbox (c : Client) : Client := { c with send := { c.send with closed := true } }

/-- The hub with a new registry and a new memory. -/
def Hub.withRegistry (h : Hub M) (clients : GoMap UUID (GoMap UUID ClientRef))
    (mem : ClientRef → Client) : Hub M :=
  { h with clients := clients, mem := mem }

/-- What a completed broadcast makes of the memory when `targets` are the clients of the
organization map: the fan-out after a successful `json.Marshal`, nothing otherwise. -/
def afterBroadcast (marshal : M → Except String Bytes) (msg : BroadcastMessage M)
    (targets : List ClientRef) (mem : ClientRef → Client) : ClientRef → Client :=
  match marshal msg.Message with
  | .ok data => fun p => if p ∈ targets then delivered msg.ContactID data (mem p) else mem p
  | .error _ => mem

/-- The clients handed over by the `register` events of a sequence, in order. -/
def registrations : List (Event M) → List ClientRef
  | [] => []
  | .register client :: rest => client :: registrations rest
  | _ :: rest => registrations rest

/-- The connections registered and not yet unregistered after a sequence of events,
starting from the connections `live`. -/
def liveAfter : List ClientRef → List (Event M) → List ClientRef
  | live, [] => live
  | live, .register client :: rest =>
    liveAfter (if client ∈ live then live else live ++ [client]) rest
  | live, .unregister client :: rest => liveAfter (live.filter (fun c => decide (c ≠ client))) rest
  | live, _ :: rest => liveAfter live rest

/-- The registry of `h` holds exactly the connections of `live`, each under its identity
`ident`, all with an open mailbox, and the submission channel is open. -/
structure Tracks (ident : ClientRef → UUID × UUID) (h : Hub M) (live : List ClientRef) :
    Prop where
  ident_eq : identity h.mem = ident
  registry : ∀ org user c, registeredAt h org user = some c ↔ c ∈ live ∧ ident c = (org, user)
  distinct : (live.map ident).Nodup
  openLive : ∀ c ∈ live, (h.mem c).send.closed = false
  count : countClients h = live.length
  queueOpen : h.broadcast.closed = false

/-- The connections `regs` still to be registered have pairwise distinct identities, none
of them that of a connection of `live`, and open mailboxes. -/
structure Fresh (ident : ClientRef → UUID × UUID) (h : Hub M) (live regs : List ClientRef) :
    Prop where
  distinct : (regs.map ident).Nodup
  unseen : ∀ c ∈ regs, ident c ∉ live.map ident
  openNew : ∀ c ∈ regs, (h.mem c).send.closed = false

/-- The event `registerClient` and `unregisterClient` log for `client` with message `text`
in hub `h`: user id, org id and the client count of `h`. -/
def clientEvent (text : String) (h : Hub M) (client : ClientRef) : LogEvent :=
  LogEvent.mk .info text
    [("user_id", .id (h.mem client).userID),
     ("org_id", .id (h.mem client).organizationID),
     ("total_clients", .count (GetClientCount h))]

/-- The warning the fan-out logs for a client whose mailbox is full: user id and org id. -/
def mailboxFullEvent (c : Client) : LogEvent :=
  LogEvent.mk .warn "Client send buffer full, skipping"
    [("user_id", .id c.userID), ("org_id", .id c.organizationID)]

/-- The warning `Broadcast` logs when the submission channel is full: no key at all. -/
def queueFullEvent : LogEvent :=
  LogEvent.mk .warn "Broadcast channel full, dropping message" []

/-- `broadcastMessage` with `json.Marshal` as a call on an encoder that has a state of its
own: `marshal v s` is what the call returns for `v` in encoder state `s`, with the state
the call leaves behind. The encoder state is threaded through the calls the code makes, so
it tells how often, on what and in which order `json.Marshal` was called, and two calls on
the same value may return different bytes. -/
def broadcastMessageWith {σ : Type} (marshal : M → σ → Except String Bytes × σ) (h : Hub M)
    (msg : BroadcastMessage M) (s : σ) : Except Panic (Hub M) × σ :=
  match h.clients.lookup msg.OrgID with
  | none => (.ok h, s)
  | some orgClients =>
    match marshal msg.Message s with
    | (.error err, s1) =>
      (.ok { h with log := h.log ++ [LogEvent.mk .error "Failed to marshal broadcast message"
              [("error", .err err)]] }, s1)
    | (.ok data, s1) => (fanOut msg.ContactID data orgClients.entries h, s1)

/-- The encoder `marshal` with its calls recorded: the state is that of `marshal` with the
list of the values it was called on so far, in call order. -/
def recording {σ : Type} (marshal : M → σ → Except String Bytes × σ) :
    M → σ × List M → Except String Bytes × (σ × List M) :=
  fun v st => ((marshal v st.1).1, ((marshal v st.1).2, st.2 ++ [v]))

/-- Modelled from the spec: the code that changes the focus of a connection is not among
the files at hand. The spec has the current focus updated by an external collaborator
after registration; the update is the assignment of the field `currentContact` of the
connection, nothing else changes. -/
def setCurrentContact (h : Hub M) (client : ClientRef) (contact : Option UUID) : Hub M :=
  { h with mem := setClient h.mem client { h.mem client with currentContact := contact } }

/-- Every connection of the registry of `h` is filed under its identity, is one of the
connections `past` registered so far and has an open mailbox; the submission channel is
open. -/
structure Safe (h : Hub M) (past : List ClientRef) : Prop where
  entries : ∀ org user c, registeredAt h org user = some c →
    identity h.mem c = (org, user) ∧ c ∈ past ∧ (h.mem c).send.closed = false
  queueOpen : h.broadcast.closed = false

/-- The connections `regs` still to be registered are pairwise distinct, none of them is
one of `past`, and their mailboxes are open. -/
structure Unused (h : Hub M) (past regs : List ClientRef) : Prop where
  distinct : regs.Nodup
  unseen : ∀ c ∈ regs, c ∉ past
  openNew : ∀ c ∈ regs, (h.mem c).send.closed = false

/-- The event neither replaces nor removes the registration of `c`: it is not the
hand-over of `c` by `Unregister`, and not the hand-over by `Register` of another connection
with the identity of `c`. -/
def Event.keepsRegistration (mem : ClientRef → Client) (c : ClientRef) : Event M → Bool
  | .register d => decide (d = c ∨ identity mem d ≠ identity mem c)
  | .unregister d => decide (d ≠ c)
  | _ => true

end Operations

/-! ## A sample hub -/

/-- Five connections of organization 1: connection `c` belongs to user `c % 4`, so that
connection 4 is a second connection of the user of connection 0; connection 1 views
contact 7, connection 2 views contact 8, the others view nothing; the mailboxes have
capacity 1 and are empty, except that of connection 3, which is full. -/
def sampleMem : ClientRef → Client := fun c =>
  { organizationID := 1,
    userID := c % 4,
    currentContact := if c = 1 then some 7 else if c = 2 then some 8 else none,
    send := if c = 3 then { buf := [[9]], cap := 1, closed := false } else Chan.make 1 }

/-- A serializer of natural-number payloads that fails on payload 0. -/
def sampleMarshal : Nat → Except String Bytes := fun n =>
  if n = 0 then .error "unsupported value" else .ok [n]

/-- An encoder of natural-number payloads that numbers its calls: it fails on payload 0 and
otherwise returns the payload followed by the number of calls made before, so that two
calls on the same payload return different bytes. -/
def sampleEncoder : Nat → Nat → Except String Bytes × Nat := fun v n =>
  (if v = 0 then .error "unsupported value" else .ok [v, n], n + 1)

/-- The hub in which connections 0, 1, 2 and 3 of `sampleMem` are registered. -/
def sampleHub : Hub Nat :=
  { clients := registryStore (registryStore (registryStore (registryStore GoMap.empty
      1 0 0) 1 1 1) 1 2 2) 1 3 3,
    broadcast := Chan.make 256,
    log := [],
    mem := sampleMem }


/-- The connections of the end-to-end scenario: all of organization 1, connection `c` of
user `c % 2` (so connection 2 is a second connection of the user of connection 0), none
viewing a contact, with empty mailboxes of capacity 8. -/
def scenarioMem : ClientRef → Client := fun c =>
  { organizationID := 1,
    userID := c % 2,
    currentContact := none,
    send := Chan.make 8 }

/-! ## The upgrade handler (`internal/handlers/websocket.go`) -/

/-- Modelled from the spec: the declaration of `middleware.JWTClaims` is not among the
files at hand. The fields are the two `validateWSToken` reads. -/
structure JWTClaims where
  UserID : UUID
  OrganizationID : UUID
  deriving DecidableEq, Repr

/-- What `validateWSToken` reads of a `*jwt.Token`: the flag `Valid` and the claims, `none`
when they are not a `*middleware.JWTClaims`. -/
structure Token where
  Valid : Bool
  Claims : Option JWTClaims
  deriving DecidableEq, Repr

/-- The two results of `jwt.ParseWithClaims`: the token and the error (`none` for `nil`). -/
structure ParseResult where
  token : Token
  err : Option String
  deriving DecidableEq, Repr

/-- What `WebSocketHandler` does with a request: an error envelope with status 401, an
error envelope with status 500, or the upgrade, in whose callback a client is built by
`NewClient` for `userID` and `orgID` and handed to `Register`. -/
inductive Response where
  | unauthorized (message : String)
  | serverError (message : String)
  | registered (userID orgID : UUID)
  deriving DecidableEq, Repr

/-- `validateWSToken`, the library call `jwt.ParseWithClaims` being the parameter `parse`:
user ID, organization ID and error. -/
def validateWSToken (parse : String → ParseResult) (tokenString : String) :
    UUID × UUID × Option String :=
  if (parse tokenString).err ≠ none ∨ (parse tokenString).token.Valid = false then
    (uuidNil, uuidNil, (parse tokenString).err)
  else
    match (parse tokenString).token.Claims with
    | none => (uuidNil, uuidNil, some "token has invalid claims")
    | some claims => (claims.UserID, claims.OrganizationID, none)

/-- `WebSocketHandler` on a request whose `token` query argument is `token` (the empty
string when absent); `upgradeOk` tells whether the upgrade of the connection succeeds. -/
def WebSocketHandler (parse : String → ParseResult) (upgradeOk : Bool) (token : String) :
    Response :=
  if token = "" then .unauthorized "Missing token"
  else
    match validateWSToken parse token with
    | (userID, orgID, none) =>
      if upgradeOk then .registered userID orgID
      else .serverError "WebSocket upgrade failed"
    | (_, _, some _) => .unauthorized "Invalid token"

/-- A parser that accepts the one token `good`, of user 7 in organization 1. -/
def sampleParse : String → ParseResult := fun s =>
  if s = "good" then { token := { Valid := true, Claims := some ⟨7, 1⟩ }, err := none }
  else { token := { Valid := false, Claims := none }, err := some "token is malformed" }

/-! ## Template helpers (`internal/handlers/templates.go`) -/

/-- A Go string, as the sequence of runes a `range` loop over it yields (a byte that is
not part of a valid UTF-8 sequence yields U+FFFD). -/
abbrev GoString := List Char

/-- `strings.ToLower`: every rune is mapped by `unicode.ToLower`, the parameter `lower`. -/
def toLower (lower : Char → Char) (s : GoString) : GoString := s.map lower

/-- `strings.ReplaceAll(s, old, new)` for strings `old` and `new` of one rune each. -/
def replaceAll (s : GoString) (old new : Char) : GoString :=
  s.map (fun c => if c = old then new else c)

/-- The condition under which the loop of `normalizeTemplateName` keeps a rune:
`(c >= 'a' && c <= 'z') || (c >= '0' && c <= '9') || c == '_'`. -/
def keptRune (c : Char) : Bool :=
  (decide ('a' ≤ c) && decide (c ≤ 'z')) || (decide ('0' ≤ c) && decide (c ≤ '9')) || c == '_'

/-- `normalizeTemplateName`: lower case, spaces and hyphens to underscores, then the loop
that writes the kept runes to the builder. -/
def normalizeTemplateName (lower : Char → Char) (name : GoString) : GoString :=
  let name1 := toLower lower name
  let name2 := replaceAll name1 ' ' '_'
  let name3 := replaceAll name2 '-' '_'
  name3.foldl (fun result c => if keptRune c then result ++ [c] else result) []

/-- The characters a normalized template name is made of, as the property lists them:
`a` to `z`, `0` to `9` and the underscore. -/
def allowedRunes : List Char :=
  ['a', 'b', 'c', 'd', 'e', 'f', 'g', 'h', 'i', 'j', 'k', 'l', 'm', 'n', 'o', 'p', 'q', 'r',
   's', 't', 'u', 'v', 'w', 'x', 'y', 'z', '0', '1', '2', '3', '4', '5', '6', '7', '8', '9', '_']

/-- The normal form as the property words it: every rune lower-cased, every space and
every hyphen turned into an underscore, and of the runes so obtained those outside
`a`-`z`, `0`-`9` and `_` removed, the others kept in their order. -/
def normalizedName (lower : Char → Char) (name : GoString) : GoString :=
  (name.map (fun c => if lower c = ' ' ∨ lower c = '-' then '_' else lower c)).filter
    (fun c => decide (c ∈ allowedRunes))

/-- An element of a `models.JSONBArray`, a Go `interface{}`: a string, a `float64` (of
which the code uses only the conversion `int(f)`, so it is given by that integer), an
`int`, a `[]interface{}`, a `map[string]interface{}` (its entries, looked up by key), or
any other value. -/
inductive Value where
  | str (s : String)
  | float (asInt : Int)
  | int (n : Int)
  | arr (items : List Value)
  | obj (entries : List (String × Value))
  | other

/-- The local type `indexedSample`. -/
structure indexedSample where
  index : Int
  value : String
  deriving DecidableEq, Repr

/-- The assignment `s, _ := m[key].(string)`: the string under `key`, the empty string
when the key is absent or holds no string. -/
def stringField (m : List (String × Value)) (key : String) : String :=
  match assocFind m key with
  | some (.str s) => s
  | _ => ""

/-- The index of a sample: 1, unless `m["index"]` is a `float64` or an `int`. -/
def sampleIndex (m : List (String × Value)) : Int :=
  match assocFind m "index" with
  | some (.float asInt) => asInt
  | some (.int n) => n
  | _ => 1

/-- The comparison `m["component"] == componentType` of an `interface{}` with a string:
true when the entry holds that very string. -/
def componentIs (m : List (String × Value)) (componentType : String) : Bool :=
  match assocFind m "component" with
  | some (.str s) => s == componentType
  | _ => false

/-- The loop `for i, v := range values` of the legacy format from position `i` on: every
string item is appended with index `i + 1`. -/
def legacySamples : Nat → List Value → List indexedSample → List indexedSample
  | _, [], samples => samples
  | i, .str s :: rest, samples => legacySamples (i + 1) rest (samples ++ [⟨i + 1, s⟩])
  | i, _ :: rest, samples => legacySamples (i + 1) rest samples

/-- The body of the collecting loop for one element `sv`. -/
def collectFrom (componentType : String) (samples : List indexedSample) (sv : Value) :
    List indexedSample :=
  match sv with
  | .obj svMap =>
    let samples1 :=
      if stringField svMap "component" = componentType then
        if stringField svMap "value" ≠ "" then
          samples ++ [⟨sampleIndex svMap, stringField svMap "value"⟩]
        else samples
      else samples
    if componentIs svMap componentType then
      match assocFind svMap "values" with
      | some (.arr values) => legacySamples 0 values samples1
      | _ => samples1
    else samples1
  | _ => samples

/-- The collecting loop `for _, sv := range sampleValues`. -/
def collectSamples (sampleValues : List Value) (componentType : String) : List indexedSample :=
  sampleValues.foldl (collectFrom componentType) []

/-- The statement `if samples[i].index > samples[j].index { samples[i], samples[j] =
samples[j], samples[i] }`, for positions within the slice. -/
def compareSwap (samples : List indexedSample) (i j : Nat) : List indexedSample :=
  match samples[i]?, samples[j]? with
  | some a, some b => if a.index > b.index then (samples.set i b).set j a else samples
  | _, _ => samples

/-- The loop `for j := ...; j < len(samples); j++` from `j` on, with `todo` iterations
left. -/
def innerLoop (i : Nat) : Nat → Nat → List indexedSample → List indexedSample
  | 0, _, samples => samples
  | todo + 1, j, samples => innerLoop i todo (j + 1) (compareSwap samples i j)

/-- The loop `for i := ...; i < len(samples)-1; i++` from `i` on, with `todo` iterations
left; its body is the inner loop from `j := i + 1`. -/
def outerLoop : Nat → Nat → List indexedSample → List indexedSample
  | 0, _, samples => samples
  | todo + 1, i, samples =>
    outerLoop todo (i + 1) (innerLoop i (samples.length - (i + 1)) (i + 1) samples)

/-- The two nested loops under the comment "Sort samples by index". -/
def sortSamples (samples : List indexedSample) : List indexedSample :=
  outerLoop (samples.length - 1) 0 samples

/-- The fallback loop: the elements of the array that are strings. -/
def plainStrings (sampleValues : List Value) : List String :=
  sampleValues.foldl
    (fun examples sv =>
      match sv with
      | .str s => examples ++ [s]
      | _ => examples)
    []

/-- `extractExamplesForComponent`. -/
def extractExamplesForComponent (sampleValues : List Value) (componentType : String) :
    List String :=
  if (collectSamples sampleValues componentType).length > 0 then
    (sortSamples (collectSamples sampleValues componentType)).map indexedSample.value
  else plainStrings sampleValues

/-- The inner loop seen from position `i`: `x` is `samples[i]` and the list holds what
follows it; the result is the final `samples[i]` and what follows it. -/
def sweep (x : indexedSample) : List indexedSample → indexedSample × List indexedSample
  | [] => (x, [])
  | y :: ys =>
    if x.index > y.index then ((sweep y ys).1, x :: (sweep y ys).2)
    else ((sweep x ys).1, y :: (sweep x ys).2)

/-- A sample-values array in the current format, out of order, with an entry of another
component, an entry without index and an entry in the legacy format. -/
def sampleValuesMixed : List Value :=
  [.obj [("component", .str "body"), ("index", .float 3), ("value", .str "c")],
   .obj [("component", .str "header"), ("index", .float 1), ("value", .str "h")],
   .obj [("component", .str "body"), ("value", .str "a")],
   .str "plain",
   .obj [("component", .str "body"), ("values", .arr [.str "x", .other, .str "z"])],
   .obj [("component", .str "body"), ("index", .int 2), ("value", .str "b")]]

/-- An array whose only entry for `body` has an empty value, next to a plain string. -/
def sampleValuesEmpty : List Value :=
  [.obj [("component", .str "body"), ("value", .str "")], .str "x"]

/-- A Go slice as far as a caller can tell: whether it is `nil`, and its elements (a `nil`
slice has none). -/
structure Slice (α : Type) where
  isNil : Bool
  items : List α
  deriving DecidableEq, Repr

/-- The slice of a composite literal `[]T{...}` or of `make([]T, n)` once filled: not
`nil`, even when it has no element. -/
def Slice.literal {α : Type} (items : List α) : Slice α := { isNil := false, items := items }

/-- The builtin `append(s, x)`: the result has an element, so it is not `nil`. -/
def Slice.append {α : Type} (s : Slice α) (x : α) : Slice α :=
  { isNil := false, items := s.items ++ [x] }

/-- The fallback of `extractExamplesForComponent` on slices: `examples := []string{}`, then
the loop that appends the elements that are strings. -/
def plainStringsSlice (sampleValues : List Value) : Slice String :=
  sampleValues.foldl
    (fun examples sv =>
      match sv with
      | .str s => examples.append s
      | _ => examples)
    (Slice.literal [])

/-- `extractExamplesForComponent` with the slice it returns: the slice made by
`make([]string, len(samples))` and filled with the values of the sorted samples, or the
slice of the fallback. -/
def extractExamplesSlice (sampleValues : List Value) (componentType : String) : Slice String :=
  if (collectSamples sampleValues componentType).length > 0 then
    Slice.literal ((sortSamples (collectSamples sampleValues componentType)).map
      indexedSample.value)
  else plainStringsSlice sampleValues

/-- The elements of the array that are plain strings, in their order, as the property
words the result of the fallback. -/
def stringElements (sampleValues : List Value) : List String :=
  sampleValues.filterMap
    (fun sv =>
      match sv with
      | .str s => some s
      | _ => none)

/-- The component an entry is for, as the property reads it: the string under
`component`, the empty string when the entry has none. -/
def entryComponent (entries : List (String × Value)) : String :=
  match List.lookup "component" entries with
  | some (.str s) => s
  | _ => ""

/-- The index of an entry, as the property reads it: the number under `index`, 1 when the
entry has none. -/
def entryIndex (entries : List (String × Value)) : Int :=
  match List.lookup "index" entries with
  | some (.float asInt) => asInt
  | some (.int n) => n
  | _ => 1

/-- The sample an entry carries in the current format for the component: its `value`,
when that is a non-empty string and the entry is for the component, with its index. -/
def currentSample (componentType : String) (entries : List (String × Value)) :
    List indexedSample :=
  match List.lookup "value" entries with
  | some (.str v) =>
    if entryComponent entries = componentType ∧ v ≠ "" then [⟨entryIndex entries, v⟩] else []
  | _ => []

/-- The samples of a legacy `values` array: its string items, the item at position `p`
(counted from 0) with index `p + 1`. -/
def legacyItems (values : List Value) : List indexedSample :=
  values.enum.filterMap
    (fun pv =>
      match pv.2 with
      | .str s => some ⟨(pv.1 : Int) + 1, s⟩
      | _ => none)

/-- The samples an entry carries in the legacy format for the component: the items of its
`values` array, when its `component` is the very string requested. -/
def legacySample (componentType : String) (entries : List (String × Value)) :
    List indexedSample :=
  match List.lookup "component" entries, List.lookup "values" entries with
  | some (.str s), some (.arr values) => if s = componentType then legacyItems values else []
  | _, _ => []

/-- The samples of one element of the array for the component: those of an object, in the
current format first, none for any other element. -/
def entrySamples (componentType : String) : Value → List indexedSample
  | .obj entries => currentSample componentType entries ++ legacySample componentType entries
  | _ => []

/-- The samples of the array for the component, as the property lists them, in the order
of the array. -/
def matchingSamples (sampleValues : List Value) (componentType : String) :
    List indexedSample :=
  (sampleValues.map (entrySamples componentType)).flatten

/-! ## Association lists -/

theorem sum_one {α : Type} (l : List α) : (l.map (fun _ => 1)).sum = l.length := by
  induction l with
  | nil => rfl
  | cons e t ih => simp only [List.map_cons, List.sum_cons, List.length_cons, ih]; omega

section Assoc

variable {κ ν : Type} [DecidableEq κ]

theorem assocFind_nil (k : κ) : assocFind ([] : List (κ × ν)) k = none := rfl

theorem assocFind_cons (e : κ × ν) (l : List (κ × ν)) (k : κ) :
    assocFind (e :: l) k = if e.1 = k then some e.2 else assocFind l k := by
  unfold assocFind
  by_cases h : e.1 = k <;> simp [List.find?_cons, h]

theorem assocFind_eq_none {l : List (κ × ν)} {k : κ} :
    assocFind l k = none ↔ k ∉ l.map Prod.fst := by
  induction l with
  | nil => simp [assocFind_nil]
  | cons e t ih =>
    rw [assocFind_cons]
    by_cases h : e.1 = k
    · simp [h]
    · simp only [h, if_false, ih, List.map_cons, List.mem_cons, not_or]
      exact ⟨fun h2 => ⟨fun h3 => h h3.symm, h2⟩, fun h2 => h2.2⟩

theorem assocFind_eq_some {l : List (κ × ν)} (hn : (l.map Prod.fst).Nodup) {k : κ} {v : ν} :
    assocFind l k = some v ↔ (k, v) ∈ l := by
  induction l with
  | nil => simp [assocFind_nil]
  | cons e t ih =>
    rw [List.map_cons, List.nodup_cons] at hn
    rw [assocFind_cons, List.mem_cons]
    by_cases h : e.1 = k
    · simp only [h, if_true, Option.some.injEq]
      constructor
      · intro h2; left; rw [← h, ← h2]
      · rintro (h2 | h2)
        · rw [← h2]
        · exact absurd (List.mem_map_of_mem Prod.fst h2) (h ▸ hn.1)
    · simp only [h, if_false, ih hn.2]
      constructor
      · exact Or.inr
      · rintro (h2 | h2)
        · exact absurd (by rw [← h2]) h
        · exact h2

theorem assocFind_replace (l : List (κ × ν)) (k k1 : κ) (v : ν) :
    assocFind (l.map (fun e => if e.1 = k then (k, v) else e)) k1 =
      if k1 = k then (assocFind l k).map (fun _ => v) else assocFind l k1 := by
  induction l with
  | nil => simp [assocFind_nil]
  | cons e t ih =>
    rw [List.map_cons, assocFind_cons, ih, assocFind_cons, assocFind_cons]
    by_cases h : e.1 = k
    · by_cases h1 : k1 = k
      · simp [h, h1]
      · have : ¬ k = k1 := fun h2 => h1 h2.symm
        simp [h, h1, this]
    · by_cases h1 : k1 = k
      · subst h1; simp [h]
      · simp [h, h1]

theorem assocFind_append (l : List (κ × ν)) (k k1 : κ) (v : ν) :
    assocFind (l ++ [(k, v)]) k1 =
      (assocFind l k1).orElse (fun _ => if k = k1 then some v else none) := by
  induction l with
  | nil => simp [assocFind_cons, assocFind_nil]
  | cons e t ih =>
    rw [List.cons_append, assocFind_cons, ih, assocFind_cons]
    by_cases h : e.1 = k1 <;> simp [h]

theorem assocFind_filter_ne (l : List (κ × ν)) (k k1 : κ) :
    assocFind (l.filter (fun e => decide (e.1 ≠ k))) k1 =
      if k1 = k then none else assocFind l k1 := by
  induction l with
  | nil => simp [assocFind_nil]
  | cons e t ih =>
    by_cases h : e.1 = k
    · rw [List.filter_cons_of_neg (by simpa using h), ih, assocFind_cons]
      by_cases h1 : k1 = k
      · simp [h1]
      · have : ¬ e.1 = k1 := fun h2 => h1 (h2 ▸ h)
        simp [h1, this]
    · rw [List.filter_cons_of_pos (by simpa using h), assocFind_cons, ih, assocFind_cons]
      by_cases h1 : k1 = k
      · subst h1; simp [h]
      · simp [h1]

theorem filter_ne_of_not_mem (l : List (κ × ν)) (k : κ) (h : k ∉ l.map Prod.fst) :
    l.filter (fun e => decide (e.1 ≠ k)) = l := by
  rw [List.filter_eq_self]
  intro e he
  simp only [ne_eq, decide_not, Bool.not_eq_eq_eq_not, Bool.not_true, decide_eq_false_iff_not]
  intro h1
  exact h (h1 ▸ List.mem_map_of_mem Prod.fst he)

theorem sum_filter_ne (f : ν → Nat) (l : List (κ × ν)) (hn : (l.map Prod.fst).Nodup) (k : κ) :
    ((l.filter (fun e => decide (e.1 ≠ k))).map (fun e => f e.2)).sum
        + ((assocFind l k).map f).getD 0
      = (l.map (fun e => f e.2)).sum := by
  induction l with
  | nil => simp [assocFind_nil]
  | cons e t ih =>
    rw [List.map_cons, List.nodup_cons] at hn
    by_cases h : e.1 = k
    · rw [List.filter_cons_of_neg (by simpa using h), assocFind_cons]
      have hk : k ∉ t.map Prod.fst := h ▸ hn.1
      rw [filter_ne_of_not_mem t k hk]
      simp [h, Nat.add_comm]
    · rw [List.filter_cons_of_pos (by simpa using h), assocFind_cons]
      simp only [h, if_false, List.map_cons, List.sum_cons]
      rw [Nat.add_assoc, ih hn.2]

theorem sum_replace (f : ν → Nat) (l : List (κ × ν)) (hn : (l.map Prod.fst).Nodup) (k : κ)
    (v : ν) (hk : k ∈ l.map Prod.fst) :
    ((l.map (fun e => if e.1 = k then (k, v) else e)).map (fun e => f e.2)).sum
        + ((assocFind l k).map f).getD 0
      = (l.map (fun e => f e.2)).sum + f v := by
  induction l with
  | nil => simp at hk
  | cons e t ih =>
    rw [List.map_cons, List.nodup_cons] at hn
    by_cases h : e.1 = k
    · have hk1 : k ∉ t.map Prod.fst := h ▸ hn.1
      have : t.map (fun e => if e.1 = k then (k, v) else e) = t := by
        conv_rhs => rw [← List.map_id t]
        apply List.map_congr_left
        intro a ha
        have : ¬ a.1 = k := fun h2 => hk1 (h2 ▸ List.mem_map_of_mem Prod.fst ha)
        simp [this]
      rw [List.map_cons, this, assocFind_cons]
      simp [h]; omega
    · have hk1 : k ∈ t.map Prod.fst := by
        rw [List.map_cons, List.mem_cons] at hk
        rcases hk with hk | hk
        · exact absurd hk.symm h
        · exact hk
      rw [List.map_cons, assocFind_cons]
      simp only [h, if_false, List.map_cons, List.sum_cons]
      have := ih hn.2 hk1
      omega

end Assoc

/-! ## Go maps: index, assignment, deletion, length -/

namespace GoMap

variable {κ ν : Type} [DecidableEq κ]

theorem ext_entries {m1 m2 : GoMap κ ν} (h : m1.entries = m2.entries) : m1 = m2 := by
  cases m1; cases m2
  simp only at h
  subst h
  rfl

theorem lookup_empty (k : κ) : (empty : GoMap κ ν).lookup k = none := rfl

theorem lookup_eq_some_iff {m : GoMap κ ν} {k : κ} {v : ν} :
    m.lookup k = some v ↔ (k, v) ∈ m.entries :=
  assocFind_eq_some m.nodupKeys

theorem lookup_eq_none_iff {m : GoMap κ ν} {k : κ} :
    m.lookup k = none ↔ k ∉ m.entries.map Prod.fst :=
  assocFind_eq_none

theorem store_entries_of_mem {m : GoMap κ ν} {k : κ} (v : ν) (hk : k ∈ m.entries.map Prod.fst) :
    (m.store k v).entries = m.entries.map (fun e => if e.1 = k then (k, v) else e) := by
  unfold store
  rw [dif_pos hk]

theorem store_entries_of_not_mem {m : GoMap κ ν} {k : κ} (v : ν)
    (hk : k ∉ m.entries.map Prod.fst) :
    (m.store k v).entries = m.entries ++ [(k, v)] := by
  unfold store
  rw [dif_neg hk]

theorem lookup_store (m : GoMap κ ν) (k : κ) (v : ν) (k1 : κ) :
    (m.store k v).lookup k1 = if k1 = k then some v else m.lookup k1 := by
  unfold lookup
  by_cases hk : k ∈ m.entries.map Prod.fst
  · rw [store_entries_of_mem v hk, assocFind_replace]
    by_cases h1 : k1 = k
    · have hs : assocFind m.entries k ≠ none := fun hn => (assocFind_eq_none.mp hn) hk
      rcases hf : assocFind m.entries k with _ | w
      · exact absurd hf hs
      · simp [h1]
    · simp [h1]
  · rw [store_entries_of_not_mem v hk, assocFind_append]
    by_cases h1 : k1 = k
    · subst h1
      rw [assocFind_eq_none.mpr hk]
      simp
    · have h2 : ¬ k = k1 := fun h3 => h1 h3.symm
      rcases hf : assocFind m.entries k1 with _ | w <;> simp [h1, h2]

theorem lookup_remove (m : GoMap κ ν) (k k1 : κ) :
    (m.remove k).lookup k1 = if k1 = k then none else m.lookup k1 :=
  assocFind_filter_ne m.entries k k1

theorem remove_of_none {m : GoMap κ ν} {k : κ} (h : m.lookup k = none) : m.remove k = m :=
  ext_entries (filter_ne_of_not_mem m.entries k (lookup_eq_none_iff.mp h))

theorem sum_store (f : ν → Nat) (m : GoMap κ ν) (k : κ) (v : ν) :
    ((m.store k v).entries.map (fun e => f e.2)).sum + ((m.lookup k).map f).getD 0
      = (m.entries.map (fun e => f e.2)).sum + f v := by
  by_cases hk : k ∈ m.entries.map Prod.fst
  · rw [store_entries_of_mem v hk]
    exact sum_replace f m.entries m.nodupKeys k v hk
  · rw [store_entries_of_not_mem v hk, lookup_eq_none_iff.mpr hk]
    simp

theorem sum_remove (f : ν → Nat) (m : GoMap κ ν) (k : κ) :
    ((m.remove k).entries.map (fun e => f e.2)).sum + ((m.lookup k).map f).getD 0
      = (m.entries.map (fun e => f e.2)).sum :=
  sum_filter_ne f m.entries m.nodupKeys k

theorem len_store_of_some {m : GoMap κ ν} {k : κ} {w : ν} (v : ν) (h : m.lookup k = some w) :
    (m.store k v).len = m.len := by
  have := sum_store (fun _ => 1) m k v
  rw [h, sum_one, sum_one] at this
  simpa [len] using this

theorem len_store_of_none {m : GoMap κ ν} {k : κ} (v : ν) (h : m.lookup k = none) :
    (m.store k v).len = m.len + 1 := by
  have := sum_store (fun _ => 1) m k v
  rw [h, sum_one, sum_one] at this
  simpa [len] using this

theorem len_store_ne_zero (m : GoMap κ ν) (k : κ) (v : ν) : (m.store k v).len ≠ 0 := by
  intro h0
  have hl : (m.store k v).lookup k = some v := by rw [lookup_store]; simp
  have hmem := lookup_eq_some_iff.mp hl
  have : (m.store k v).entries = [] := List.length_eq_zero.mp h0
  rw [this] at hmem
  exact absurd hmem (List.not_mem_nil _)

theorem len_remove_of_some {m : GoMap κ ν} {k : κ} {w : ν} (h : m.lookup k = some w) :
    (m.remove k).len + 1 = m.len := by
  have := sum_remove (fun _ => 1) m k
  rw [h, sum_one, sum_one] at this
  simpa [len] using this

theorem lookup_of_len_zero {m : GoMap κ ν} (h : m.len = 0) (k : κ) : m.lookup k = none := by
  have : m.entries = [] := List.length_eq_zero.mp h
  unfold lookup
  rw [this]
  rfl

end GoMap

/-! ## The registry: nested index, insertion, deletion, size -/

section Registry

theorem registryFind_store (clients : GoMap UUID (GoMap UUID ClientRef)) (org user : UUID)
    (client : ClientRef) (org1 user1 : UUID) :
    registryFind (registryStore clients org user client) org1 user1 =
      if org1 = org ∧ user1 = user then some client else registryFind clients org1 user1 := by
  unfold registryFind registryStore
  rw [GoMap.lookup_store]
  by_cases ho : org1 = org
  · subst ho
    simp only [if_true, true_and, GoMap.lookup_store]
    by_cases hu : user1 = user
    · simp [hu]
    · simp only [hu, if_false]
      rcases clients.lookup org1 with _ | oc
      · simp [GoMap.lookup_empty]
      · simp
  · simp [ho]

theorem registrySize_store_of_none {clients : GoMap UUID (GoMap UUID ClientRef)} {org user : UUID}
    (client : ClientRef) (h : registryFind clients org user = none) :
    registrySize (registryStore clients org user client) = registrySize clients + 1 := by
  unfold registrySize registryStore
  have hs := GoMap.sum_store GoMap.len clients org
    (((clients.lookup org).getD GoMap.empty).store user client)
  unfold registryFind at h
  rcases hl : clients.lookup org with _ | oc
  · rw [hl] at hs
    have : ((GoMap.empty : GoMap UUID ClientRef).store user client).len = 1 := by
      rw [GoMap.len_store_of_none client (GoMap.lookup_empty user)]; rfl
    simp only [Option.getD_none, Option.map_none', this] at hs ⊢
    omega
  · rw [hl] at hs h
    simp only [Option.getD_some, Option.map_some', GoMap.len_store_of_none client h] at hs ⊢
    omega

theorem registrySize_store_of_some {clients : GoMap UUID (GoMap UUID ClientRef)} {org user : UUID}
    {existing : ClientRef} (client : ClientRef) (h : registryFind clients org user = some existing) :
    registrySize (registryStore clients org user client) = registrySize clients := by
  unfold registrySize registryStore
  have hs := GoMap.sum_store GoMap.len clients org
    (((clients.lookup org).getD GoMap.empty).store user client)
  unfold registryFind at h
  rcases hl : clients.lookup org with _ | oc
  · rw [hl] at h; exact absurd h (by simp)
  · rw [hl] at hs h
    simp only [Option.getD_some, Option.map_some', GoMap.len_store_of_some client h] at hs ⊢
    omega

theorem registryFind_drop (clients : GoMap UUID (GoMap UUID ClientRef)) (org user : UUID)
    (org1 user1 : UUID) :
    registryFind (registryDrop clients org user) org1 user1 =
      if org1 = org ∧ user1 = user then none else registryFind clients org1 user1 := by
  unfold registryDrop
  rcases hl : clients.lookup org with _ | oc
  · simp only
    by_cases hc : org1 = org ∧ user1 = user
    · rw [if_pos hc, hc.1]
      unfold registryFind
      rw [hl]
    · rw [if_neg hc]
  · simp only
    by_cases hz : (oc.remove user).len = 0
    · rw [if_pos hz]
      unfold registryFind
      rw [GoMap.lookup_remove]
      by_cases ho : org1 = org
      · subst ho
        simp only [if_true, true_and, hl]
        by_cases hu : user1 = user
        · simp [hu]
        · have := GoMap.lookup_of_len_zero hz user1
          rw [GoMap.lookup_remove, if_neg hu] at this
          simp [hu, this]
      · simp [ho]
    · rw [if_neg hz]
      unfold registryFind
      rw [GoMap.lookup_store]
      by_cases ho : org1 = org
      · subst ho
        simp only [if_true, true_and, hl, GoMap.lookup_remove]
      · simp [ho]

theorem registrySize_drop {clients : GoMap UUID (GoMap UUID ClientRef)} {org user : UUID}
    {existing : ClientRef} (h : registryFind clients org user = some existing) :
    registrySize (registryDrop clients org user) + 1 = registrySize clients := by
  unfold registryFind at h
  unfold registryDrop
  rcases hl : clients.lookup org with _ | oc
  · rw [hl] at h; exact absurd h (by simp)
  · rw [hl] at h
    simp only
    have hlen := GoMap.len_remove_of_some h
    by_cases hz : (oc.remove user).len = 0
    · rw [if_pos hz]
      have hs := GoMap.sum_remove GoMap.len clients org
      rw [hl] at hs
      simp only [Option.map_some', Option.getD_some] at hs
      unfold registrySize
      omega
    · rw [if_neg hz]
      have hs := GoMap.sum_store GoMap.len clients org (oc.remove user)
      rw [hl] at hs
      simp only [Option.map_some', Option.getD_some] at hs
      unfold registrySize
      omega

end Registry

/-! ## The operations, case by case -/

section Cases

variable {M : Type}

theorem foldl_add_eq_sum {α : Type} (f : α → Nat) (l : List α) (a : Nat) :
    l.foldl (fun count e => count + f e) a = a + (l.map f).sum := by
  induction l generalizing a with
  | nil => simp
  | cons e t ih => simp only [List.foldl_cons, ih, List.map_cons, List.sum_cons]; omega

theorem countClients_eq (h : Hub M) : countClients h = registrySize h.clients := by
  unfold countClients registrySize
  rw [foldl_add_eq_sum]; omega

theorem closeSend_of_open {mem : ClientRef → Client} {c : ClientRef}
    (h : (mem c).send.closed = false) :
    closeSend mem c = .ok (setClient mem c (closeMailbox (mem c))) := by
  unfold closeSend Chan.close
  rw [h]
  rfl

theorem closeSend_of_closed {mem : ClientRef → Client} {c : ClientRef}
    (h : (mem c).send.closed = true) :
    closeSend mem c = .error .closeOfClosedChannel := by
  unfold closeSend Chan.close
  rw [h]
  rfl

theorem registryFind_eq_getD (clients : GoMap UUID (GoMap UUID ClientRef)) (org user : UUID) :
    registryFind clients org user = ((clients.lookup org).getD GoMap.empty).lookup user := by
  unfold registryFind
  rcases clients.lookup org with _ | oc
  · rfl
  · rfl

theorem registerClient_of_none {h : Hub M} {client : ClientRef}
    (hn : registeredAt h (h.mem client).organizationID (h.mem client).userID = none) :
    registerClient h client = .ok (logClient "WebSocket client registered"
      (h.withRegistry
        (registryStore h.clients (h.mem client).organizationID (h.mem client).userID client)
        h.mem) client) := by
  unfold registeredAt at hn
  rw [registryFind_eq_getD] at hn
  unfold registerClient
  simp only [hn]
  rfl

theorem registerClient_of_open {h : Hub M} {client existing : ClientRef}
    (hs : registeredAt h (h.mem client).organizationID (h.mem client).userID = some existing)
    (ho : (h.mem existing).send.closed = false) :
    registerClient h client = .ok (logClient "WebSocket client registered"
      (h.withRegistry
        (registryStore h.clients (h.mem client).organizationID (h.mem client).userID client)
        (setClient h.mem existing (closeMailbox (h.mem existing)))) client) := by
  unfold registeredAt at hs
  rw [registryFind_eq_getD] at hs
  unfold registerClient
  simp only [hs, closeSend_of_open ho]
  rfl

theorem registerClient_of_closed {h : Hub M} {client existing : ClientRef}
    (hs : registeredAt h (h.mem client).organizationID (h.mem client).userID = some existing)
    (hc : (h.mem existing).send.closed = true) :
    registerClient h client = .error .closeOfClosedChannel := by
  unfold registeredAt at hs
  rw [registryFind_eq_getD] at hs
  unfold registerClient
  simp only [hs, closeSend_of_closed hc]

theorem unregisterClient_of_stale {h : Hub M} {client : ClientRef}
    (hn : registeredAt h (h.mem client).organizationID (h.mem client).userID ≠ some client) :
    unregisterClient h client = .ok (logClient "WebSocket client unregistered" h client) := by
  unfold registeredAt registryFind at hn
  unfold unregisterClient
  rcases hl : h.clients.lookup (h.mem client).organizationID with _ | oc
  · simp only [hl]
  · rw [hl] at hn
    simp only at hn
    rcases hl2 : oc.lookup (h.mem client).userID with _ | ex
    · simp only [hl, hl2]
    · rw [hl2] at hn
      have : ¬ ex = client := fun he => hn (by rw [he])
      simp only [hl, hl2, this, if_false]

theorem unregisterClient_of_open {h : Hub M} {client : ClientRef}
    (hs : registeredAt h (h.mem client).organizationID (h.mem client).userID = some client)
    (ho : (h.mem client).send.closed = false) :
    unregisterClient h client = .ok (logClient "WebSocket client unregistered"
      (h.withRegistry
        (registryDrop h.clients (h.mem client).organizationID (h.mem client).userID)
        (setClient h.mem client (closeMailbox (h.mem client)))) client) := by
  unfold registeredAt registryFind at hs
  unfold unregisterClient registryDrop
  rcases hl : h.clients.lookup (h.mem client).organizationID with _ | oc
  · rw [hl] at hs; exact absurd hs (by simp)
  · rw [hl] at hs
    simp only at hs
    simp only [hl, hs, if_true, closeSend_of_open ho]
    rfl

theorem unregisterClient_of_closed {h : Hub M} {client : ClientRef}
    (hs : registeredAt h (h.mem client).organizationID (h.mem client).userID = some client)
    (hc : (h.mem client).send.closed = true) :
    unregisterClient h client = .error .closeOfClosedChannel := by
  unfold registeredAt registryFind at hs
  unfold unregisterClient
  rcases hl : h.clients.lookup (h.mem client).organizationID with _ | oc
  · rw [hl] at hs; exact absurd hs (by simp)
  · rw [hl] at hs
    simp only at hs
    simp only [hl, hs, if_true, closeSend_of_closed hc]

theorem setClient_same (mem : ClientRef → Client) (c : ClientRef) (v : Client) :
    setClient mem c v c = v := by
  unfold setClient; simp

theorem setClient_other (mem : ClientRef → Client) {c p : ClientRef} (v : Client) (h : p ≠ c) :
    setClient mem c v p = mem p := by
  unfold setClient; simp [h]

theorem setClient_self (mem : ClientRef → Client) (c : ClientRef) :
    setClient mem c (mem c) = mem := by
  funext p
  unfold setClient
  by_cases h : p = c
  · simp [h]
  · simp [h]

theorem sendToClient_of_open (contactID : UUID) (data : Bytes) {h : Hub M} {client : ClientRef}
    (ho : (h.mem client).send.closed = false) :
    ∃ h1, sendToClient contactID data h client = .ok h1 ∧ h1.clients = h.clients ∧
      h1.broadcast = h.broadcast ∧
      h1.mem = setClient h.mem client (delivered contactID data (h.mem client)) := by
  unfold sendToClient delivered
  by_cases hs : skipsClient contactID (h.mem client).currentContact = true
  · simp only [hs, if_true]
    exact ⟨h, rfl, rfl, rfl, (setClient_self h.mem client).symm⟩
  · simp only [hs, if_false, Chan.trySend, ho]
    by_cases hl : (h.mem client).send.buf.length < (h.mem client).send.cap
    · simp only [hl, if_true]
      exact ⟨_, rfl, rfl, rfl, rfl⟩
    · simp only [hl, if_false]
      exact ⟨_, rfl, rfl, rfl, (setClient_self h.mem client).symm⟩

theorem fanOut_of_open (contactID : UUID) (data : Bytes) :
    ∀ (es : List (UUID × ClientRef)) (h : Hub M),
      (∀ e ∈ es, (h.mem e.2).send.closed = false) → (es.map Prod.snd).Nodup →
      ∃ h1, fanOut contactID data es h = .ok h1 ∧ h1.clients = h.clients ∧
        h1.broadcast = h.broadcast ∧
        ∀ p, h1.mem p =
          if p ∈ es.map Prod.snd then delivered contactID data (h.mem p) else h.mem p := by
  intro es
  induction es with
  | nil =>
    intro h _ _
    exact ⟨h, rfl, rfl, rfl, fun p => by simp⟩
  | cons e rest ih =>
    intro h hopen hnd
    rw [List.map_cons, List.nodup_cons] at hnd
    obtain ⟨h1, hsend, hc1, hb1, hm1⟩ :=
      sendToClient_of_open contactID data (hopen e (List.mem_cons_self _ _))
    have hrest : ∀ e1 ∈ rest, (h1.mem e1.2).send.closed = false := by
      intro e1 he1
      have hne : e1.2 ≠ e.2 := fun heq => hnd.1 (heq ▸ List.mem_map_of_mem Prod.snd he1)
      rw [hm1, setClient_other _ _ hne]
      exact hopen e1 (List.mem_cons_of_mem _ he1)
    obtain ⟨h2, hfan, hc2, hb2, hm2⟩ := ih h1 hrest hnd.2
    refine ⟨h2, ?_, hc2.trans hc1, hb2.trans hb1, ?_⟩
    · simp only [fanOut, hsend]
      exact hfan
    · intro p
      rw [hm2 p, hm1]
      by_cases hp : p = e.2
      · subst hp
        simp [hnd.1, setClient_same]
      · rw [setClient_other _ _ hp]
        by_cases hin : p ∈ rest.map Prod.snd
        · have hin1 : p ∈ (e :: rest).map Prod.snd := by
            rw [List.map_cons]
            exact List.mem_cons_of_mem _ hin
          rw [if_pos hin, if_pos hin1]
        · have hin2 : p ∉ (e :: rest).map Prod.snd := by
            rw [List.map_cons, List.mem_cons]
            exact fun hor => hor.elim hp hin
          rw [if_neg hin, if_neg hin2]

theorem registeredAt_iff_mem {h : Hub M} {org user : UUID} {c : ClientRef} :
    registeredAt h org user = some c ↔
      ∃ oc, (org, oc) ∈ h.clients.entries ∧ (user, c) ∈ oc.entries := by
  unfold registeredAt registryFind
  constructor
  · intro hr
    rcases hl : h.clients.lookup org with _ | oc
    · rw [hl] at hr; exact absurd hr (by simp)
    · rw [hl] at hr
      exact ⟨oc, GoMap.lookup_eq_some_iff.mp hl, GoMap.lookup_eq_some_iff.mp hr⟩
  · rintro ⟨oc, h1, h2⟩
    rw [GoMap.lookup_eq_some_iff.mpr h1]
    exact GoMap.lookup_eq_some_iff.mpr h2

theorem broadcastMessage_of_open (marshal : M → Except String Bytes) (h : Hub M)
    (msg : BroadcastMessage M) {oc : GoMap UUID ClientRef}
    (hl : h.clients.lookup msg.OrgID = some oc)
    (hopen : ∀ e ∈ oc.entries, (h.mem e.2).send.closed = false)
    (hnd : (oc.entries.map Prod.snd).Nodup) :
    ∃ h1, broadcastMessage marshal h msg = .ok h1 ∧ h1.clients = h.clients ∧
      h1.broadcast = h.broadcast ∧
      h1.mem = afterBroadcast marshal msg (oc.entries.map Prod.snd) h.mem := by
  unfold broadcastMessage afterBroadcast
  simp only [hl]
  rcases marshal msg.Message with err | data
  · exact ⟨_, rfl, rfl, rfl, rfl⟩
  · obtain ⟨h1, hf, hc, hb, hm⟩ := fanOut_of_open msg.ContactID data oc.entries h hopen hnd
    exact ⟨h1, hf, hc, hb, funext hm⟩

theorem values_nodup_of_keysAgree {h : Hub M} (hk : keysAgree h) {org : UUID}
    {oc : GoMap UUID ClientRef} (hmem : (org, oc) ∈ h.clients.entries) :
    (oc.entries.map Prod.snd).Nodup := by
  have hkeys : oc.entries.map Prod.fst
      = (oc.entries.map Prod.snd).map (fun c => (identity h.mem c).2) := by
    rw [List.map_map]
    apply List.map_congr_left
    intro e he
    have := hk (org, oc) hmem e he
    simp only [Function.comp, this]
  have hn := oc.nodupKeys
  rw [hkeys] at hn
  exact List.Nodup.of_map _ hn

theorem broadcastMessage_of_absent (marshal : M → Except String Bytes) (h : Hub M)
    (msg : BroadcastMessage M) (habsent : h.clients.lookup msg.OrgID = none) :
    broadcastMessage marshal h msg = .ok h := by
  unfold broadcastMessage
  rw [habsent]

theorem skipsClient_nil (cc : Option UUID) : skipsClient uuidNil cc = false := by
  unfold skipsClient
  simp

theorem delivered_of_full (contactID : UUID) (data : Bytes) {c : Client}
    (h : c.send.full = true) : delivered contactID data c = c := by
  unfold delivered
  have : ¬ c.send.buf.length < c.send.cap := by
    unfold Chan.full at h
    simp only [decide_eq_true_eq] at h
    omega
  simp only [this, if_false, ite_self]

theorem afterBroadcast_congr (marshal : M → Except String Bytes) (msg : BroadcastMessage M)
    (mem : ClientRef → Client) {t1 t2 : List ClientRef} {p : ClientRef}
    (h : p ∈ t1 ↔ p ∈ t2) :
    afterBroadcast marshal msg t1 mem p = afterBroadcast marshal msg t2 mem p := by
  unfold afterBroadcast
  rcases marshal msg.Message with err | data
  · rfl
  · simp only [h]

theorem afterBroadcast_nil (marshal : M → Except String Bytes) (msg : BroadcastMessage M)
    (mem : ClientRef → Client) : afterBroadcast marshal msg [] mem = mem := by
  unfold afterBroadcast
  rcases marshal msg.Message with err | data
  · rfl
  · funext p; simp

theorem mem_values_remove {oc : GoMap UUID ClientRef} {user : UUID} {s c : ClientRef}
    (hs : oc.lookup user = some s) (hne : c ≠ s) :
    c ∈ (oc.remove user).entries.map Prod.snd ↔ c ∈ oc.entries.map Prod.snd := by
  constructor
  · intro hc
    obtain ⟨e, he, hec⟩ := List.mem_map.mp hc
    exact List.mem_map.mpr ⟨e, (List.mem_filter.mp he).1, hec⟩
  · intro hc
    obtain ⟨e, he, hec⟩ := List.mem_map.mp hc
    refine List.mem_map.mpr ⟨e, List.mem_filter.mpr ⟨he, ?_⟩, hec⟩
    simp only [ne_eq, decide_not, Bool.not_eq_eq_eq_not, Bool.not_true, decide_eq_false_iff_not]
    intro heu
    have : oc.lookup user = some e.2 := GoMap.lookup_eq_some_iff.mpr (by rw [← heu]; exact he)
    rw [hs] at this
    exact hne (by rw [← hec]; exact (Option.some.inj this).symm)

theorem noEmptyOrg_iff {h : Hub M} :
    noEmptyOrg h ↔ ∀ org oc, h.clients.lookup org = some oc → oc.len ≠ 0 := by
  unfold noEmptyOrg
  constructor
  · intro hn org oc hl
    exact hn (org, oc) (GoMap.lookup_eq_some_iff.mp hl)
  · intro hn e he
    exact hn e.1 e.2 (GoMap.lookup_eq_some_iff.mpr he)

theorem registryStore_nonempty {clients : GoMap UUID (GoMap UUID ClientRef)}
    (hn : ∀ org oc, clients.lookup org = some oc → oc.len ≠ 0) (org user : UUID)
    (client : ClientRef) :
    ∀ org1 oc, (registryStore clients org user client).lookup org1 = some oc → oc.len ≠ 0 := by
  intro org1 oc hl
  unfold registryStore at hl
  rw [GoMap.lookup_store] at hl
  by_cases ho : org1 = org
  · rw [if_pos ho] at hl
    rw [← Option.some.inj hl]
    exact GoMap.len_store_ne_zero _ _ _
  · rw [if_neg ho] at hl
    exact hn org1 oc hl

theorem registryDrop_nonempty {clients : GoMap UUID (GoMap UUID ClientRef)}
    (hn : ∀ org oc, clients.lookup org = some oc → oc.len ≠ 0) (org user : UUID) :
    ∀ org1 oc, (registryDrop clients org user).lookup org1 = some oc → oc.len ≠ 0 := by
  intro org1 oc hl
  unfold registryDrop at hl
  rcases hlo : clients.lookup org with _ | oc0
  · rw [hlo] at hl
    exact hn org1 oc hl
  · rw [hlo] at hl
    simp only at hl
    by_cases hz : (oc0.remove user).len = 0
    · rw [if_pos hz, GoMap.lookup_remove] at hl
      by_cases ho : org1 = org
      · rw [if_pos ho] at hl; exact absurd hl (by simp)
      · rw [if_neg ho] at hl; exact hn org1 oc hl
    · rw [if_neg hz, GoMap.lookup_store] at hl
      by_cases ho : org1 = org
      · rw [if_pos ho] at hl
        rw [← Option.some.inj hl]
        exact hz
      · rw [if_neg ho] at hl; exact hn org1 oc hl

theorem registerClient_clients {h h1 : Hub M} {client : ClientRef}
    (hr : registerClient h client = .ok h1) :
    h1.clients = registryStore h.clients (h.mem client).organizationID
      (h.mem client).userID client := by
  rcases hreg : registeredAt h (h.mem client).organizationID (h.mem client).userID with _ | ex
  · rw [registerClient_of_none hreg] at hr
    rw [← Except.ok.inj hr]; rfl
  · rcases hc : (h.mem ex).send.closed with _ | _
    · rw [registerClient_of_open hreg hc] at hr
      rw [← Except.ok.inj hr]; rfl
    · rw [registerClient_of_closed hreg hc] at hr
      exact absurd hr (by simp)

theorem unregisterClient_clients {h h1 : Hub M} {client : ClientRef}
    (hr : unregisterClient h client = .ok h1) :
    h1.clients = h.clients ∨
      h1.clients = registryDrop h.clients (h.mem client).organizationID (h.mem client).userID := by
  by_cases hreg : registeredAt h (h.mem client).organizationID (h.mem client).userID = some client
  · rcases hc : (h.mem client).send.closed with _ | _
    · rw [unregisterClient_of_open hreg hc] at hr
      rw [← Except.ok.inj hr]; exact Or.inr rfl
    · rw [unregisterClient_of_closed hreg hc] at hr
      exact absurd hr (by simp)
  · rw [unregisterClient_of_stale hreg] at hr
    rw [← Except.ok.inj hr]; exact Or.inl rfl

theorem sendToClient_clients {contactID : UUID} {data : Bytes} {h h1 : Hub M}
    {client : ClientRef} (hs : sendToClient contactID data h client = .ok h1) :
    h1.clients = h.clients ∧ h1.broadcast = h.broadcast := by
  unfold sendToClient at hs
  by_cases hk : skipsClient contactID (h.mem client).currentContact = true
  · rw [if_pos hk] at hs
    rw [← Except.ok.inj hs]; exact ⟨rfl, rfl⟩
  · rw [if_neg hk] at hs
    rcases ht : (h.mem client).send.trySend data with p | ⟨ch, b⟩
    · rw [ht] at hs; exact absurd hs (by simp)
    · rw [ht] at hs
      cases b
      · simp only at hs
        rw [← Except.ok.inj hs]; exact ⟨rfl, rfl⟩
      · simp only at hs
        rw [← Except.ok.inj hs]; exact ⟨rfl, rfl⟩

theorem fanOut_clients {contactID : UUID} {data : Bytes} :
    ∀ (es : List (UUID × ClientRef)) {h h1 : Hub M},
      fanOut contactID data es h = .ok h1 → h1.clients = h.clients ∧ h1.broadcast = h.broadcast := by
  intro es
  induction es with
  | nil =>
    intro h h1 hf
    rw [← Except.ok.inj hf]; exact ⟨rfl, rfl⟩
  | cons e rest ih =>
    intro h h1 hf
    unfold fanOut at hf
    rcases hs : sendToClient contactID data h e.2 with p | h2
    · rw [hs] at hf; exact absurd hf (by simp)
    · rw [hs] at hf
      have h12 := ih hf
      have h2h := sendToClient_clients hs
      exact ⟨h12.1.trans h2h.1, h12.2.trans h2h.2⟩

theorem broadcastMessage_clients {marshal : M → Except String Bytes} {h h1 : Hub M}
    {msg : BroadcastMessage M} (hb : broadcastMessage marshal h msg = .ok h1) :
    h1.clients = h.clients ∧ h1.broadcast = h.broadcast := by
  unfold broadcastMessage at hb
  rcases hl : h.clients.lookup msg.OrgID with _ | oc
  · rw [hl] at hb
    rw [← Except.ok.inj hb]; exact ⟨rfl, rfl⟩
  · rw [hl] at hb
    rcases hm : marshal msg.Message with err | data
    · rw [hm] at hb
      rw [← Except.ok.inj hb]; exact ⟨rfl, rfl⟩
    · rw [hm] at hb
      exact fanOut_clients _ hb

theorem Broadcast_clients {h h1 : Hub M} {msg : BroadcastMessage M}
    (hb : Broadcast h msg = .ok h1) : h1.clients = h.clients ∧ h1.mem = h.mem := by
  unfold Broadcast at hb
  rcases ht : h.broadcast.trySend msg with p | ⟨ch, b⟩
  · rw [ht] at hb; exact absurd hb (by simp)
  · rw [ht] at hb
    cases b
    · simp only at hb
      rw [← Except.ok.inj hb]; exact ⟨rfl, rfl⟩
    · simp only at hb
      rw [← Except.ok.inj hb]; exact ⟨rfl, rfl⟩

theorem step_noEmptyOrg {marshal : M → Except String Bytes} {h h1 : Hub M} {ev : Event M}
    (hs : step marshal h ev = .ok h1) (hn : noEmptyOrg h) : noEmptyOrg h1 := by
  rw [noEmptyOrg_iff] at hn ⊢
  cases ev with
  | register client =>
    rw [registerClient_clients hs]
    exact registryStore_nonempty hn _ _ _
  | unregister client =>
    rcases unregisterClient_clients hs with hc | hc
    · rw [hc]; exact hn
    · rw [hc]; exact registryDrop_nonempty hn _ _
  | submit msg =>
    rw [(Broadcast_clients hs).1]; exact hn
  | deliver =>
    unfold step at hs
    rcases hq : h.broadcast.buf with _ | ⟨msg, rest⟩
    · rw [hq] at hs
      rw [← Except.ok.inj hs]; exact hn
    · rw [hq] at hs
      rw [(broadcastMessage_clients hs).1]; exact hn

theorem run_noEmptyOrg {marshal : M → Except String Bytes} :
    ∀ (evs : List (Event M)) {h h1 : Hub M},
      run marshal h evs = .ok h1 → noEmptyOrg h → noEmptyOrg h1 := by
  intro evs
  induction evs with
  | nil =>
    intro h h1 hr hn
    rw [← Except.ok.inj hr]; exact hn
  | cons ev rest ih =>
    intro h h1 hr hn
    unfold run at hr
    rcases hs : step marshal h ev with p | h2
    · rw [hs] at hr; exact absurd hr (by simp)
    · rw [hs] at hr
      exact ih hr (step_noEmptyOrg hs hn)

theorem tracks_register {ident : ClientRef → UUID × UUID} {h : Hub M} {live regs : List ClientRef}
    {c : ClientRef} (t : Tracks ident h live) (f : Fresh ident h live (c :: regs)) :
    ∃ h1, registerClient h c = .ok h1 ∧
      Tracks ident h1 (if c ∈ live then live else live ++ [c]) ∧
      Fresh ident h1 (if c ∈ live then live else live ++ [c]) regs := by
  have hidc : ident c = ((h.mem c).organizationID, (h.mem c).userID) :=
    (congrFun t.ident_eq c).symm
  have hunseen : ident c ∉ live.map ident := f.unseen c (List.mem_cons_self _ _)
  have hcl : c ∉ live := fun hc => hunseen (List.mem_map_of_mem ident hc)
  have hnone : registeredAt h (h.mem c).organizationID (h.mem c).userID = none := by
    rcases hr : registeredAt h (h.mem c).organizationID (h.mem c).userID with _ | ex
    · rfl
    · have := (t.registry _ _ ex).mp hr
      exact absurd (by rw [hidc, ← this.2]; exact List.mem_map_of_mem ident this.1) hunseen
  have hd := f.distinct
  rw [List.map_cons, List.nodup_cons] at hd
  rw [if_neg hcl]
  refine ⟨_, registerClient_of_none hnone, ⟨t.ident_eq, ?_, ?_, ?_, ?_, t.queueOpen⟩,
    ⟨hd.2, ?_, ?_⟩⟩
  · intro org user c1
    show registryFind (registryStore h.clients _ _ c) org user = some c1 ↔ _
    rw [registryFind_store]
    by_cases hk : org = (h.mem c).organizationID ∧ user = (h.mem c).userID
    · rw [if_pos hk]
      have hcu : ident c = (org, user) := by rw [hidc, hk.1, hk.2]
      constructor
      · intro he
        have := Option.some.inj he
        subst this
        exact ⟨by simp, hcu⟩
      · rintro ⟨hm, hi⟩
        rcases List.mem_append.mp hm with hm | hm
        · exact absurd (by rw [hcu, ← hi]; exact List.mem_map_of_mem ident hm) hunseen
        · rw [List.mem_singleton.mp hm]
    · rw [if_neg hk]
      have hreg := t.registry org user c1
      unfold registeredAt at hreg
      rw [hreg]
      constructor
      · rintro ⟨hm, hi⟩
        exact ⟨List.mem_append_left _ hm, hi⟩
      · rintro ⟨hm, hi⟩
        rcases List.mem_append.mp hm with hm | hm
        · exact ⟨hm, hi⟩
        · exfalso
          rw [List.mem_singleton.mp hm, hidc] at hi
          exact hk ⟨(congrArg Prod.fst hi).symm, (congrArg Prod.snd hi).symm⟩
  · rw [List.map_append, List.nodup_append]
    refine ⟨t.distinct, by simp, ?_⟩
    intro a ha hb
    simp only [List.map_cons, List.map_nil, List.mem_singleton] at hb
    exact hunseen (hb ▸ ha)
  · intro c1 hc1
    rcases List.mem_append.mp hc1 with hm | hm
    · exact t.openLive c1 hm
    · rw [List.mem_singleton.mp hm]
      exact f.openNew c (List.mem_cons_self _ _)
  · show countClients _ = _
    rw [countClients_eq]
    show registrySize (registryStore h.clients _ _ c) = _
    rw [registrySize_store_of_none c hnone, List.length_append, ← t.count, countClients_eq]
    rfl
  · intro c1 hc1 hin
    rw [List.map_append, List.mem_append] at hin
    rcases hin with hin | hin
    · exact f.unseen c1 (List.mem_cons_of_mem _ hc1) hin
    · simp only [List.map_cons, List.map_nil, List.mem_singleton] at hin
      exact hd.1 (hin ▸ List.mem_map_of_mem ident hc1)
  · intro c1 hc1
    exact f.openNew c1 (List.mem_cons_of_mem _ hc1)

theorem length_filter_ne_of_mem {l : List ClientRef} (hn : l.Nodup) {c : ClientRef}
    (hc : c ∈ l) : (l.filter (fun p => decide (p ≠ c))).length + 1 = l.length := by
  induction l with
  | nil => exact absurd hc (List.not_mem_nil _)
  | cons a t ih =>
    rw [List.nodup_cons] at hn
    by_cases ha : a = c
    · subst ha
      rw [List.filter_cons_of_neg (by simp)]
      have : t.filter (fun p => decide (p ≠ a)) = t := by
        rw [List.filter_eq_self]
        intro p hp
        have : p ≠ a := fun hpa => hn.1 (hpa ▸ hp)
        simpa using this
      rw [this, List.length_cons]
    · have hct : c ∈ t := by
        rcases List.mem_cons.mp hc with h1 | h1
        · exact absurd h1.symm ha
        · exact h1
      rw [List.filter_cons_of_pos (by simpa using ha), List.length_cons, List.length_cons,
        ih hn.2 hct]

theorem filter_ne_of_not_mem_ref {l : List ClientRef} {c : ClientRef} (hc : c ∉ l) :
    l.filter (fun p => decide (p ≠ c)) = l := by
  rw [List.filter_eq_self]
  intro p hp
  have : p ≠ c := fun hpc => hc (hpc ▸ hp)
  simpa using this

theorem tracks_unregister {ident : ClientRef → UUID × UUID} {h : Hub M}
    {live regs : List ClientRef} (c : ClientRef) (t : Tracks ident h live)
    (f : Fresh ident h live regs) :
    ∃ h1, unregisterClient h c = .ok h1 ∧
      Tracks ident h1 (live.filter (fun p => decide (p ≠ c))) ∧
      Fresh ident h1 (live.filter (fun p => decide (p ≠ c))) regs := by
  have hidc : ident c = ((h.mem c).organizationID, (h.mem c).userID) :=
    (congrFun t.ident_eq c).symm
  by_cases hcl : c ∈ live
  · have hcur : registeredAt h (h.mem c).organizationID (h.mem c).userID = some c :=
      (t.registry _ _ c).mpr ⟨hcl, hidc⟩
    have hopen := t.openLive c hcl
    have hsub : (live.filter (fun p => decide (p ≠ c))).Sublist live := List.filter_sublist live
    have hmemf : ∀ p, p ∈ live.filter (fun p => decide (p ≠ c)) ↔ p ∈ live ∧ p ≠ c := by
      intro p
      rw [List.mem_filter]
      simp
    refine ⟨_, unregisterClient_of_open hcur hopen, ⟨?_, ?_, ?_, ?_, ?_, t.queueOpen⟩,
      ⟨f.distinct, ?_, ?_⟩⟩
    · show identity (setClient h.mem c (closeMailbox (h.mem c))) = ident
      rw [← t.ident_eq]
      funext p
      unfold identity
      by_cases hp : p = c
      · subst hp
        rw [setClient_same]
        rfl
      · rw [setClient_other _ _ hp]
    · intro org user c1
      show registryFind (registryDrop h.clients _ _) org user = some c1 ↔ _
      rw [registryFind_drop, hmemf]
      have hreg := t.registry org user c1
      unfold registeredAt at hreg
      by_cases hk : org = (h.mem c).organizationID ∧ user = (h.mem c).userID
      · rw [if_pos hk]
        constructor
        · intro he
          exact absurd he (by simp)
        · rintro ⟨⟨hm, hne⟩, hi⟩
          exfalso
          have hcu : ident c = (org, user) := by rw [hidc, hk.1, hk.2]
          exact hne (List.inj_on_of_nodup_map t.distinct hm hcl (hi.trans hcu.symm))
      · rw [if_neg hk, hreg]
        constructor
        · rintro ⟨hm, hi⟩
          refine ⟨⟨hm, ?_⟩, hi⟩
          intro he
          rw [he, hidc] at hi
          exact hk ⟨(congrArg Prod.fst hi).symm, (congrArg Prod.snd hi).symm⟩
        · rintro ⟨⟨hm, _⟩, hi⟩
          exact ⟨hm, hi⟩
    · exact (hsub.map ident).nodup t.distinct
    · intro c1 hc1
      have := (hmemf c1).mp hc1
      show (setClient h.mem c (closeMailbox (h.mem c)) c1).send.closed = false
      rw [setClient_other _ _ this.2]
      exact t.openLive c1 this.1
    · show countClients _ = _
      rw [countClients_eq]
      show registrySize (registryDrop h.clients _ _) = _
      have h1 := registrySize_drop hcur
      have h2 := length_filter_ne_of_mem (List.Nodup.of_map ident t.distinct) hcl
      have h3 := t.count
      rw [countClients_eq] at h3
      omega
    · intro c1 hc1 hin
      exact f.unseen c1 hc1 ((hsub.map ident).subset hin)
    · intro c1 hc1
      have hne : c1 ≠ c := by
        intro he
        exact f.unseen c1 hc1 (List.mem_map_of_mem ident (he ▸ hcl))
      show (setClient h.mem c (closeMailbox (h.mem c)) c1).send.closed = false
      rw [setClient_other _ _ hne]
      exact f.openNew c1 hc1
  · have hstale : registeredAt h (h.mem c).organizationID (h.mem c).userID ≠ some c :=
      fun hr => hcl ((t.registry _ _ c).mp hr).1
    rw [filter_ne_of_not_mem_ref hcl]
    exact ⟨_, unregisterClient_of_stale hstale,
      ⟨t.ident_eq, t.registry, t.distinct, t.openLive, t.count, t.queueOpen⟩,
      ⟨f.distinct, f.unseen, f.openNew⟩⟩

theorem tracks_transfer {ident : ClientRef → UUID × UUID} {h h1 : Hub M}
    {live : List ClientRef} (t : Tracks ident h live) (hc : h1.clients = h.clients)
    (hm : ∀ p, (h1.mem p).organizationID = (h.mem p).organizationID ∧
      (h1.mem p).userID = (h.mem p).userID ∧
      (h1.mem p).send.closed = (h.mem p).send.closed)
    (hq : h1.broadcast.closed = h.broadcast.closed) : Tracks ident h1 live := by
  refine ⟨?_, ?_, t.distinct, ?_, ?_, hq.trans t.queueOpen⟩
  · rw [← t.ident_eq]
    funext p
    unfold identity
    rw [(hm p).1, (hm p).2.1]
  · intro org user c
    have := t.registry org user c
    unfold registeredAt at this ⊢
    rw [hc]
    exact this
  · intro c hcl
    rw [(hm c).2.2]
    exact t.openLive c hcl
  · rw [countClients_eq, hc, ← countClients_eq]
    exact t.count

theorem fresh_transfer {ident : ClientRef → UUID × UUID} {h h1 : Hub M}
    {live regs : List ClientRef} (f : Fresh ident h live regs)
    (hm : ∀ p, (h1.mem p).send.closed = (h.mem p).send.closed) : Fresh ident h1 live regs :=
  ⟨f.distinct, f.unseen, fun c hc => (hm c).trans (f.openNew c hc)⟩

theorem tracks_keysAgree {ident : ClientRef → UUID × UUID} {h : Hub M} {live : List ClientRef}
    (t : Tracks ident h live) : keysAgree h := by
  intro e he e1 he1
  have hr : registeredAt h e.1 e1.1 = some e1.2 := registeredAt_iff_mem.mpr ⟨e.2, he, he1⟩
  rw [t.ident_eq]
  exact ((t.registry _ _ _).mp hr).2

theorem tracks_registeredOpen {ident : ClientRef → UUID × UUID} {h : Hub M}
    {live : List ClientRef} (t : Tracks ident h live) : registeredOpen h := by
  intro e he e1 he1
  have hr : registeredAt h e.1 e1.1 = some e1.2 := registeredAt_iff_mem.mpr ⟨e.2, he, he1⟩
  exact t.openLive _ ((t.registry _ _ _).mp hr).1

theorem delivered_frame (contactID : UUID) (data : Bytes) (c : Client) :
    (delivered contactID data c).organizationID = c.organizationID ∧
      (delivered contactID data c).userID = c.userID ∧
      (delivered contactID data c).currentContact = c.currentContact ∧
      (delivered contactID data c).send.closed = c.send.closed ∧
      (delivered contactID data c).send.cap = c.send.cap := by
  unfold delivered
  split
  · exact ⟨rfl, rfl, rfl, rfl, rfl⟩
  · split
    · exact ⟨rfl, rfl, rfl, rfl, rfl⟩
    · exact ⟨rfl, rfl, rfl, rfl, rfl⟩

theorem afterBroadcast_frame (marshal : M → Except String Bytes) (msg : BroadcastMessage M)
    (targets : List ClientRef) (mem : ClientRef → Client) (p : ClientRef) :
    (afterBroadcast marshal msg targets mem p).organizationID = (mem p).organizationID ∧
      (afterBroadcast marshal msg targets mem p).userID = (mem p).userID ∧
      (afterBroadcast marshal msg targets mem p).send.closed = (mem p).send.closed := by
  unfold afterBroadcast
  rcases marshal msg.Message with err | data
  · exact ⟨rfl, rfl, rfl⟩
  · by_cases hp : p ∈ targets
    · simp only [hp, if_true]
      have := delivered_frame msg.ContactID data (mem p)
      exact ⟨this.1, this.2.1, this.2.2.2.1⟩
    · simp only [hp, if_false, and_self]

theorem tracks_submit {ident : ClientRef → UUID × UUID} {h : Hub M}
    {live regs : List ClientRef} (msg : BroadcastMessage M) (t : Tracks ident h live)
    (f : Fresh ident h live regs) :
    ∃ h1, Broadcast h msg = .ok h1 ∧ Tracks ident h1 live ∧ Fresh ident h1 live regs := by
  unfold Broadcast Chan.trySend
  rw [t.queueOpen]
  by_cases hl : h.broadcast.buf.length < h.broadcast.cap
  · simp only [hl, if_true]
    exact ⟨_, rfl, tracks_transfer t rfl (fun _ => ⟨rfl, rfl, rfl⟩) t.queueOpen.symm,
      fresh_transfer f (fun _ => rfl)⟩
  · simp only [hl, if_false]
    exact ⟨_, rfl, tracks_transfer t rfl (fun _ => ⟨rfl, rfl, rfl⟩) rfl,
      fresh_transfer f (fun _ => rfl)⟩

theorem tracks_broadcast {ident : ClientRef → UUID × UUID} {h : Hub M}
    {live regs : List ClientRef} (marshal : M → Except String Bytes) (msg : BroadcastMessage M)
    (t : Tracks ident h live) (f : Fresh ident h live regs) :
    ∃ h1, broadcastMessage marshal h msg = .ok h1 ∧ Tracks ident h1 live ∧
      Fresh ident h1 live regs := by
  rcases hl : h.clients.lookup msg.OrgID with _ | oc
  · exact ⟨h, broadcastMessage_of_absent marshal h msg hl, t, f⟩
  · have hin := GoMap.lookup_eq_some_iff.mp hl
    obtain ⟨h1, hb, hc, hq, hm⟩ := broadcastMessage_of_open marshal h msg hl
      (tracks_registeredOpen t _ hin) (values_nodup_of_keysAgree (tracks_keysAgree t) hin)
    have hfr : ∀ p, (h1.mem p).organizationID = (h.mem p).organizationID ∧
        (h1.mem p).userID = (h.mem p).userID ∧
        (h1.mem p).send.closed = (h.mem p).send.closed := by
      intro p
      rw [hm]
      exact afterBroadcast_frame marshal msg _ h.mem p
    exact ⟨h1, hb, tracks_transfer t hc hfr (by rw [hq]),
      fresh_transfer f (fun p => (hfr p).2.2)⟩

theorem tracks_step {ident : ClientRef → UUID × UUID} {h : Hub M} {live : List ClientRef}
    (marshal : M → Except String Bytes) (ev : Event M) (rest : List (Event M))
    (t : Tracks ident h live) (f : Fresh ident h live (registrations (ev :: rest))) :
    ∃ h1, step marshal h ev = .ok h1 ∧ Tracks ident h1 (liveAfter live [ev]) ∧
      Fresh ident h1 (liveAfter live [ev]) (registrations rest) := by
  cases ev with
  | register client => exact tracks_register t f
  | unregister client => exact tracks_unregister client t f
  | submit msg => exact tracks_submit msg t f
  | deliver =>
    show ∃ h1, step marshal h .deliver = .ok h1 ∧ Tracks ident h1 live ∧
      Fresh ident h1 live (registrations rest)
    unfold step
    rcases hq : h.broadcast.buf with _ | ⟨msg, pending⟩
    · exact ⟨h, rfl, t, f⟩
    · exact tracks_broadcast marshal msg
        (tracks_transfer t rfl (fun _ => ⟨rfl, rfl, rfl⟩) rfl) (fresh_transfer f (fun _ => rfl))

theorem liveAfter_cons (live : List ClientRef) (ev : Event M) (rest : List (Event M)) :
    liveAfter live (ev :: rest) = liveAfter (liveAfter live [ev]) rest := by
  cases ev <;> rfl

theorem run_tracks {ident : ClientRef → UUID × UUID} (marshal : M → Except String Bytes) :
    ∀ (evs : List (Event M)) (h : Hub M) (live : List ClientRef),
      Tracks ident h live → Fresh ident h live (registrations evs) →
      ∃ h1, run marshal h evs = .ok h1 ∧ Tracks ident h1 (liveAfter live evs) := by
  intro evs
  induction evs with
  | nil =>
    intro h live t _
    exact ⟨h, rfl, t⟩
  | cons ev rest ih =>
    intro h live t f
    obtain ⟨h1, hs, t1, f1⟩ := tracks_step marshal ev rest t f
    obtain ⟨h2, hr, t2⟩ := ih h1 _ t1 f1
    refine ⟨h2, ?_, ?_⟩
    · unfold run
      rw [hs]
      exact hr
    · rw [liveAfter_cons]
      exact t2

theorem tracks_newHub (mem : ClientRef → Client) :
    Tracks (identity mem) (NewHub mem : Hub M) [] := by
  refine ⟨rfl, ?_, List.nodup_nil, fun c hc => absurd hc (List.not_mem_nil _), rfl, rfl⟩
  intro org user c
  constructor
  · intro hr
    exact absurd hr (by simp [registeredAt, registryFind, NewHub, GoMap.lookup_empty])
  · rintro ⟨hc, _⟩
    exact absurd hc (List.not_mem_nil _)

theorem registerClient_broadcast {h h1 : Hub M} {client : ClientRef}
    (hr : registerClient h client = .ok h1) : h1.broadcast = h.broadcast := by
  rcases hreg : registeredAt h (h.mem client).organizationID (h.mem client).userID with _ | ex
  · rw [registerClient_of_none hreg] at hr
    rw [← Except.ok.inj hr]; rfl
  · rcases hc : (h.mem ex).send.closed with _ | _
    · rw [registerClient_of_open hreg hc] at hr
      rw [← Except.ok.inj hr]; rfl
    · rw [registerClient_of_closed hreg hc] at hr
      exact absurd hr (by simp)

theorem unregisterClient_broadcast {h h1 : Hub M} {client : ClientRef}
    (hr : unregisterClient h client = .ok h1) : h1.broadcast = h.broadcast := by
  by_cases hreg : registeredAt h (h.mem client).organizationID (h.mem client).userID = some client
  · rcases hc : (h.mem client).send.closed with _ | _
    · rw [unregisterClient_of_open hreg hc] at hr
      rw [← Except.ok.inj hr]; rfl
    · rw [unregisterClient_of_closed hreg hc] at hr
      exact absurd hr (by simp)
  · rw [unregisterClient_of_stale hreg] at hr
    rw [← Except.ok.inj hr]; rfl

theorem Broadcast_queue {h h1 : Hub M} {msg : BroadcastMessage M}
    (hb : Broadcast h msg = .ok h1) :
    h1.broadcast.cap = h.broadcast.cap ∧ h1.broadcast.closed = h.broadcast.closed := by
  unfold Broadcast Chan.trySend at hb
  rcases hc : h.broadcast.closed with _ | _
  · rw [hc] at hb
    by_cases hl : h.broadcast.buf.length < h.broadcast.cap
    · simp only [hl, if_true, Bool.false_eq_true, if_false] at hb
      rw [← Except.ok.inj hb]; exact ⟨rfl, hc.symm ▸ rfl⟩
    · simp only [hl, if_false, Bool.false_eq_true] at hb
      rw [← Except.ok.inj hb]; exact ⟨rfl, hc⟩
  · rw [hc] at hb
    simp at hb

theorem step_queue {marshal : M → Except String Bytes} {h h1 : Hub M} {ev : Event M}
    (hs : step marshal h ev = .ok h1) :
    h1.broadcast.cap = h.broadcast.cap ∧ h1.broadcast.closed = h.broadcast.closed := by
  cases ev with
  | register client => rw [registerClient_broadcast hs]; exact ⟨rfl, rfl⟩
  | unregister client => rw [unregisterClient_broadcast hs]; exact ⟨rfl, rfl⟩
  | submit msg => exact Broadcast_queue hs
  | deliver =>
    unfold step at hs
    rcases hq : h.broadcast.buf with _ | ⟨msg, rest⟩
    · rw [hq] at hs
      rw [← Except.ok.inj hs]; exact ⟨rfl, rfl⟩
    · rw [hq] at hs
      rw [(broadcastMessage_clients hs).2]; exact ⟨rfl, rfl⟩

theorem run_queue {marshal : M → Except String Bytes} :
    ∀ (evs : List (Event M)) {h h1 : Hub M}, run marshal h evs = .ok h1 →
      h1.broadcast.cap = h.broadcast.cap ∧ h1.broadcast.closed = h.broadcast.closed := by
  intro evs
  induction evs with
  | nil =>
    intro h h1 hr
    rw [← Except.ok.inj hr]; exact ⟨rfl, rfl⟩
  | cons ev rest ih =>
    intro h h1 hr
    unfold run at hr
    rcases hs : step marshal h ev with p | h2
    · rw [hs] at hr; exact absurd hr (by simp)
    · rw [hs] at hr
      have h12 := ih hr
      have h2h := step_queue hs
      exact ⟨h12.1.trans h2h.1, h12.2.trans h2h.2⟩

theorem registerClient_log {h h1 : Hub M} {client : ClientRef}
    (hr : registerClient h client = .ok h1) :
    h1.log = h.log ++ [clientEvent "WebSocket client registered" h1 client] ∧
      (h1.mem client).userID = (h.mem client).userID ∧
      (h1.mem client).organizationID = (h.mem client).organizationID := by
  rcases hreg : registeredAt h (h.mem client).organizationID (h.mem client).userID with _ | ex
  · rw [registerClient_of_none hreg] at hr
    rw [← Except.ok.inj hr]
    exact ⟨rfl, rfl, rfl⟩
  · rcases hc : (h.mem ex).send.closed with _ | _
    · rw [registerClient_of_open hreg hc] at hr
      rw [← Except.ok.inj hr]
      refine ⟨rfl, ?_, ?_⟩
      · show (setClient h.mem ex (closeMailbox (h.mem ex)) client).userID = _
        by_cases he : client = ex
        · subst he; rw [setClient_same]; rfl
        · rw [setClient_other _ _ he]
      · show (setClient h.mem ex (closeMailbox (h.mem ex)) client).organizationID = _
        by_cases he : client = ex
        · subst he; rw [setClient_same]; rfl
        · rw [setClient_other _ _ he]
    · rw [registerClient_of_closed hreg hc] at hr
      exact absurd hr (by simp)

theorem unregisterClient_log {h h1 : Hub M} {client : ClientRef}
    (hr : unregisterClient h client = .ok h1) :
    h1.log = h.log ++ [clientEvent "WebSocket client unregistered" h1 client] ∧
      (h1.mem client).userID = (h.mem client).userID ∧
      (h1.mem client).organizationID = (h.mem client).organizationID := by
  by_cases hreg : registeredAt h (h.mem client).organizationID (h.mem client).userID = some client
  · rcases hc : (h.mem client).send.closed with _ | _
    · rw [unregisterClient_of_open hreg hc] at hr
      rw [← Except.ok.inj hr]
      refine ⟨rfl, ?_, ?_⟩
      · show (setClient h.mem client (closeMailbox (h.mem client)) client).userID = _
        rw [setClient_same]; rfl
      · show (setClient h.mem client (closeMailbox (h.mem client)) client).organizationID = _
        rw [setClient_same]; rfl
    · rw [unregisterClient_of_closed hreg hc] at hr
      exact absurd hr (by simp)
  · rw [unregisterClient_of_stale hreg] at hr
    rw [← Except.ok.inj hr]
    exact ⟨rfl, rfl, rfl⟩

theorem sendToClient_log {contactID : UUID} {data : Bytes} {h h1 : Hub M} {client : ClientRef}
    (hs : sendToClient contactID data h client = .ok h1) :
    (∀ ev ∈ h.log, ev ∈ h1.log) ∧
      (skipsClient contactID (h.mem client).currentContact = false →
        (h.mem client).send.full = true → mailboxFullEvent (h.mem client) ∈ h1.log) := by
  unfold sendToClient at hs
  by_cases hk : skipsClient contactID (h.mem client).currentContact = true
  · rw [if_pos hk] at hs
    rw [← Except.ok.inj hs]
    exact ⟨fun ev hev => hev, fun hn => absurd hk (by rw [hn]; simp)⟩
  · rw [if_neg hk] at hs
    unfold Chan.trySend at hs
    rcases hc : (h.mem client).send.closed with _ | _
    · rw [hc] at hs
      by_cases hl : (h.mem client).send.buf.length < (h.mem client).send.cap
      · simp only [hl, if_true, Bool.false_eq_true, if_false] at hs
        rw [← Except.ok.inj hs]
        refine ⟨fun ev hev => hev, fun _ hfull => ?_⟩
        unfold Chan.full at hfull
        simp only [decide_eq_true_eq] at hfull
        omega
      · simp only [hl, if_false, Bool.false_eq_true] at hs
        rw [← Except.ok.inj hs]
        refine ⟨fun ev hev => List.mem_append_left _ hev, fun _ _ => ?_⟩
        exact List.mem_append_right _ (List.mem_singleton.mpr rfl)
    · rw [hc] at hs
      simp at hs

theorem fanOut_log (contactID : UUID) (data : Bytes) :
    ∀ (es : List (UUID × ClientRef)) (h h1 : Hub M),
      (∀ e ∈ es, (h.mem e.2).send.closed = false) → (es.map Prod.snd).Nodup →
      fanOut contactID data es h = .ok h1 →
      (∀ ev ∈ h.log, ev ∈ h1.log) ∧
        ∀ e ∈ es, skipsClient contactID (h.mem e.2).currentContact = false →
          (h.mem e.2).send.full = true → mailboxFullEvent (h.mem e.2) ∈ h1.log := by
  intro es
  induction es with
  | nil =>
    intro h h1 _ _ hf
    rw [← Except.ok.inj hf]
    exact ⟨fun ev hev => hev, fun e he => absurd he (List.not_mem_nil _)⟩
  | cons e rest ih =>
    intro h h1 hopen hnd hf
    rw [List.map_cons, List.nodup_cons] at hnd
    obtain ⟨h2, hsend, -, -, hm2⟩ :=
      sendToClient_of_open contactID data (hopen e (List.mem_cons_self _ _))
    have hlog2 := sendToClient_log hsend
    have hsame : ∀ e1 ∈ rest, h2.mem e1.2 = h.mem e1.2 := by
      intro e1 he1
      have hne : e1.2 ≠ e.2 := fun heq => hnd.1 (heq ▸ List.mem_map_of_mem Prod.snd he1)
      rw [hm2, setClient_other _ _ hne]
    have hrest : ∀ e1 ∈ rest, (h2.mem e1.2).send.closed = false := by
      intro e1 he1
      rw [hsame e1 he1]
      exact hopen e1 (List.mem_cons_of_mem _ he1)
    unfold fanOut at hf
    rw [hsend] at hf
    have hih := ih h2 h1 hrest hnd.2 hf
    refine ⟨fun ev hev => hih.1 ev (hlog2.1 ev hev), ?_⟩
    intro e1 he1 hskip hfull
    rcases List.mem_cons.mp he1 with heq | hin
    · rw [heq] at hskip hfull ⊢
      exact hih.1 _ (hlog2.2 hskip hfull)
    · have := hih.2 e1 hin
      rw [hsame e1 hin] at this
      exact this hskip hfull

theorem delivered_cases (contactID : UUID) (data : Bytes) (c : Client) :
    delivered contactID data c = c ∨
      (delivered contactID data c).send.buf = c.send.buf ++ [data] := by
  unfold delivered
  split
  · exact Or.inl rfl
  · split
    · exact Or.inr rfl
    · exact Or.inl rfl

theorem safe_keysAgree {h : Hub M} {past : List ClientRef} (s : Safe h past) : keysAgree h := by
  intro e he e1 he1
  exact (s.entries _ _ _ (registeredAt_iff_mem.mpr ⟨e.2, he, he1⟩)).1

theorem safe_registeredOpen {h : Hub M} {past : List ClientRef} (s : Safe h past) :
    registeredOpen h := by
  intro e he e1 he1
  exact (s.entries _ _ _ (registeredAt_iff_mem.mpr ⟨e.2, he, he1⟩)).2.2

theorem safe_transfer {h h1 : Hub M} {past : List ClientRef} (s : Safe h past)
    (hc : h1.clients = h.clients)
    (hm : ∀ p, (h1.mem p).organizationID = (h.mem p).organizationID ∧
      (h1.mem p).userID = (h.mem p).userID ∧
      (h1.mem p).send.closed = (h.mem p).send.closed)
    (hq : h1.broadcast.closed = h.broadcast.closed) : Safe h1 past := by
  refine ⟨?_, hq.trans s.queueOpen⟩
  intro org user c hr
  have hr0 : registeredAt h org user = some c := by
    unfold registeredAt at hr ⊢
    rw [← hc]; exact hr
  have := s.entries org user c hr0
  refine ⟨?_, this.2.1, (hm c).2.2.trans this.2.2⟩
  unfold identity at this ⊢
  rw [(hm c).1, (hm c).2.1]
  exact this.1

theorem unused_transfer {h h1 : Hub M} {past regs : List ClientRef} (u : Unused h past regs)
    (hm : ∀ p, (h1.mem p).send.closed = (h.mem p).send.closed) : Unused h1 past regs :=
  ⟨u.distinct, u.unseen, fun c hc => (hm c).trans (u.openNew c hc)⟩

theorem safe_register {h : Hub M} {past regs : List ClientRef} {c : ClientRef}
    (s : Safe h past) (u : Unused h past (c :: regs)) :
    ∃ h1, registerClient h c = .ok h1 ∧ Safe h1 (c :: past) ∧ Unused h1 (c :: past) regs := by
  have hcp : c ∉ past := u.unseen c (List.mem_cons_self _ _)
  have hco : (h.mem c).send.closed = false := u.openNew c (List.mem_cons_self _ _)
  have hd := u.distinct
  rw [List.nodup_cons] at hd
  have hunseen : ∀ c1 ∈ regs, c1 ∉ c :: past := by
    intro c1 hc1 hin
    rcases List.mem_cons.mp hin with heq | hin
    · exact hd.1 (heq ▸ hc1)
    · exact u.unseen c1 (List.mem_cons_of_mem _ hc1) hin
  rcases hreg : registeredAt h (h.mem c).organizationID (h.mem c).userID with _ | ex
  · refine ⟨_, registerClient_of_none hreg, ⟨?_, s.queueOpen⟩, ⟨hd.2, hunseen, ?_⟩⟩
    · intro org user c1 hr
      change registryFind (registryStore h.clients _ _ c) org user = some c1 at hr
      rw [registryFind_store] at hr
      by_cases hk : org = (h.mem c).organizationID ∧ user = (h.mem c).userID
      · rw [if_pos hk] at hr
        have := Option.some.inj hr
        subst this
        refine ⟨?_, List.mem_cons_self _ _, hco⟩
        show ((h.mem c).organizationID, (h.mem c).userID) = (org, user)
        rw [hk.1, hk.2]
      · rw [if_neg hk] at hr
        have := s.entries org user c1 hr
        exact ⟨this.1, List.mem_cons_of_mem _ this.2.1, this.2.2⟩
    · intro c1 hc1
      exact u.openNew c1 (List.mem_cons_of_mem _ hc1)
  · have hex := s.entries _ _ ex hreg
    have hne : c ≠ ex := fun he => hcp (he ▸ hex.2.1)
    refine ⟨_, registerClient_of_open hreg hex.2.2, ⟨?_, s.queueOpen⟩, ⟨hd.2, hunseen, ?_⟩⟩
    · intro org user c1 hr
      change registryFind (registryStore h.clients _ _ c) org user = some c1 at hr
      show identity (setClient h.mem ex (closeMailbox (h.mem ex))) c1 = (org, user) ∧
        c1 ∈ c :: past ∧ (setClient h.mem ex (closeMailbox (h.mem ex)) c1).send.closed = false
      rw [registryFind_store] at hr
      by_cases hk : org = (h.mem c).organizationID ∧ user = (h.mem c).userID
      · rw [if_pos hk] at hr
        have := Option.some.inj hr
        subst this
        unfold identity
        rw [setClient_other _ _ hne]
        refine ⟨?_, List.mem_cons_self _ _, hco⟩
        rw [hk.1, hk.2]
      · rw [if_neg hk] at hr
        have := s.entries org user c1 hr
        have hne1 : c1 ≠ ex := by
          intro he
          rw [he, hex.1] at this
          exact hk ⟨(congrArg Prod.fst this.1).symm, (congrArg Prod.snd this.1).symm⟩
        unfold identity
        rw [setClient_other _ _ hne1]
        exact ⟨this.1, List.mem_cons_of_mem _ this.2.1, this.2.2⟩
    · intro c1 hc1
      have hne1 : c1 ≠ ex := fun he =>
        u.unseen c1 (List.mem_cons_of_mem _ hc1) (he ▸ hex.2.1)
      show (setClient h.mem ex (closeMailbox (h.mem ex)) c1).send.closed = false
      rw [setClient_other _ _ hne1]
      exact u.openNew c1 (List.mem_cons_of_mem _ hc1)

theorem safe_unregister {h : Hub M} {past regs : List ClientRef} (c : ClientRef)
    (s : Safe h past) (u : Unused h past regs) :
    ∃ h1, unregisterClient h c = .ok h1 ∧ Safe h1 past ∧ Unused h1 past regs := by
  by_cases hcur : registeredAt h (h.mem c).organizationID (h.mem c).userID = some c
  · have hc := s.entries _ _ c hcur
    refine ⟨_, unregisterClient_of_open hcur hc.2.2, ⟨?_, s.queueOpen⟩,
      ⟨u.distinct, u.unseen, ?_⟩⟩
    · intro org user c1 hr
      change registryFind (registryDrop h.clients _ _) org user = some c1 at hr
      show identity (setClient h.mem c (closeMailbox (h.mem c))) c1 = (org, user) ∧
        c1 ∈ past ∧ (setClient h.mem c (closeMailbox (h.mem c)) c1).send.closed = false
      rw [registryFind_drop] at hr
      by_cases hk : org = (h.mem c).organizationID ∧ user = (h.mem c).userID
      · rw [if_pos hk] at hr
        exact absurd hr (by simp)
      · rw [if_neg hk] at hr
        have := s.entries org user c1 hr
        have hne1 : c1 ≠ c := by
          intro he
          rw [he] at this
          have h1 := this.1
          unfold identity at h1
          exact hk ⟨(congrArg Prod.fst h1).symm, (congrArg Prod.snd h1).symm⟩
        unfold identity
        rw [setClient_other _ _ hne1]
        exact this
    · intro c1 hc1
      have hne1 : c1 ≠ c := fun he => u.unseen c1 hc1 (he ▸ hc.2.1)
      show (setClient h.mem c (closeMailbox (h.mem c)) c1).send.closed = false
      rw [setClient_other _ _ hne1]
      exact u.openNew c1 hc1
  · exact ⟨_, unregisterClient_of_stale hcur, ⟨s.entries, s.queueOpen⟩,
      ⟨u.distinct, u.unseen, u.openNew⟩⟩

theorem safe_submit {h : Hub M} {past regs : List ClientRef} (msg : BroadcastMessage M)
    (s : Safe h past) (u : Unused h past regs) :
    ∃ h1, Broadcast h msg = .ok h1 ∧ Safe h1 past ∧ Unused h1 past regs := by
  unfold Broadcast Chan.trySend
  rw [s.queueOpen]
  by_cases hl : h.broadcast.buf.length < h.broadcast.cap
  · simp only [hl, if_true]
    exact ⟨_, rfl, safe_transfer s rfl (fun _ => ⟨rfl, rfl, rfl⟩) s.queueOpen.symm,
      unused_transfer u (fun _ => rfl)⟩
  · simp only [hl, if_false]
    exact ⟨_, rfl, safe_transfer s rfl (fun _ => ⟨rfl, rfl, rfl⟩) rfl,
      unused_transfer u (fun _ => rfl)⟩

theorem safe_broadcast {h : Hub M} {past regs : List ClientRef}
    (marshal : M → Except String Bytes) (msg : BroadcastMessage M)
    (s : Safe h past) (u : Unused h past regs) :
    ∃ h1, broadcastMessage marshal h msg = .ok h1 ∧ Safe h1 past ∧ Unused h1 past regs := by
  rcases hl : h.clients.lookup msg.OrgID with _ | oc
  · exact ⟨h, broadcastMessage_of_absent marshal h msg hl, s, u⟩
  · have hin := GoMap.lookup_eq_some_iff.mp hl
    obtain ⟨h1, hb, hc, hq, hm⟩ := broadcastMessage_of_open marshal h msg hl
      (safe_registeredOpen s _ hin) (values_nodup_of_keysAgree (safe_keysAgree s) hin)
    have hfr : ∀ p, (h1.mem p).organizationID = (h.mem p).organizationID ∧
        (h1.mem p).userID = (h.mem p).userID ∧
        (h1.mem p).send.closed = (h.mem p).send.closed := by
      intro p
      rw [hm]
      exact afterBroadcast_frame marshal msg _ h.mem p
    exact ⟨h1, hb, safe_transfer s hc hfr (by rw [hq]),
      unused_transfer u (fun p => (hfr p).2.2)⟩

theorem safe_step {h : Hub M} {past : List ClientRef} (marshal : M → Except String Bytes)
    (ev : Event M) (rest : List (Event M)) (s : Safe h past)
    (u : Unused h past (registrations (ev :: rest))) :
    ∃ h1, step marshal h ev = .ok h1 ∧ Safe h1 (registrations [ev] ++ past) ∧
      Unused h1 (registrations [ev] ++ past) (registrations rest) := by
  cases ev with
  | register client => exact safe_register s u
  | unregister client => exact safe_unregister client s u
  | submit msg => exact safe_submit msg s u
  | deliver =>
    show ∃ h1, step marshal h .deliver = .ok h1 ∧ Safe h1 past ∧
      Unused h1 past (registrations rest)
    unfold step
    rcases hq : h.broadcast.buf with _ | ⟨msg, pending⟩
    · exact ⟨h, rfl, s, u⟩
    · exact safe_broadcast marshal msg
        (safe_transfer s rfl (fun _ => ⟨rfl, rfl, rfl⟩) rfl) (unused_transfer u (fun _ => rfl))

theorem run_safe (marshal : M → Except String Bytes) :
    ∀ (evs : List (Event M)) (h : Hub M) (past : List ClientRef),
      Safe h past → Unused h past (registrations evs) →
      ∃ h1, run marshal h evs = .ok h1 ∧ registeredOpen h1 := by
  intro evs
  induction evs with
  | nil =>
    intro h past s _
    exact ⟨h, rfl, safe_registeredOpen s⟩
  | cons ev rest ih =>
    intro h past s u
    obtain ⟨h1, hs, s1, u1⟩ := safe_step marshal ev rest s u
    obtain ⟨h2, hr, ho⟩ := ih h1 _ s1 u1
    refine ⟨h2, ?_, ho⟩
    unfold run
    rw [hs]
    exact hr

theorem registrations_append (evs1 evs2 : List (Event M)) :
    registrations (evs1 ++ evs2) = registrations evs1 ++ registrations evs2 := by
  induction evs1 with
  | nil => rfl
  | cons ev rest ih =>
    cases ev <;> simp [registrations, ih]

theorem foldl_keep_eq_filter {α : Type} (p : α → Bool) (l acc : List α) :
    l.foldl (fun result c => if p c then result ++ [c] else result) acc = acc ++ l.filter p := by
  induction l generalizing acc with
  | nil => simp
  | cons a t ih =>
    rw [List.foldl_cons, ih]
    by_cases hp : p a = true
    · simp [hp]
    · simp [hp]

theorem keptRune_iff (c : Char) :
    keptRune c = true ↔ ('a' ≤ c ∧ c ≤ 'z') ∨ ('0' ≤ c ∧ c ≤ '9') ∨ c = '_' := by
  unfold keptRune
  simp only [Bool.or_eq_true, Bool.and_eq_true, decide_eq_true_eq, beq_iff_eq, or_assoc]

theorem getElem?_append_cons {α : Type} (pre : List α) (x : α) (t : List α) :
    (pre ++ x :: t)[pre.length]? = some x := by
  induction pre with
  | nil => simp
  | cons a p ih => simpa using ih

theorem set_append_cons {α : Type} (pre : List α) (x v : α) (t : List α) :
    (pre ++ x :: t).set pre.length v = pre ++ v :: t := by
  induction pre with
  | nil => rfl
  | cons a p ih => simp [ih]

theorem compareSwap_split (pre mid ys : List indexedSample) (x y : indexedSample) :
    compareSwap (pre ++ x :: (mid ++ y :: ys)) pre.length (pre.length + 1 + mid.length) =
      if x.index > y.index then pre ++ y :: (mid ++ x :: ys)
      else pre ++ x :: (mid ++ y :: ys) := by
  have hj : pre.length + 1 + mid.length = (pre ++ x :: mid).length := by
    simp; omega
  have hs : pre ++ x :: (mid ++ y :: ys) = (pre ++ x :: mid) ++ y :: ys := by simp
  have hgi : (pre ++ x :: (mid ++ y :: ys))[pre.length]? = some x :=
    getElem?_append_cons pre x _
  have hgj : (pre ++ x :: (mid ++ y :: ys))[pre.length + 1 + mid.length]? = some y := by
    rw [hj, hs]
    exact getElem?_append_cons _ y ys
  unfold compareSwap
  rw [hgi, hgj]
  simp only
  by_cases hgt : x.index > y.index
  · rw [if_pos hgt, if_pos hgt, set_append_cons]
    have hj2 : pre.length + 1 + mid.length = (pre ++ y :: mid).length := by
      simp; omega
    have hs2 : pre ++ y :: (mid ++ y :: ys) = (pre ++ y :: mid) ++ y :: ys := by simp
    rw [hj2, hs2, set_append_cons]
    simp
  · rw [if_neg hgt, if_neg hgt]

theorem innerLoop_sweep (pre : List indexedSample) :
    ∀ (todo : List indexedSample) (x : indexedSample) (mid : List indexedSample),
      innerLoop pre.length todo.length (pre.length + 1 + mid.length) (pre ++ x :: (mid ++ todo)) =
        pre ++ (sweep x todo).1 :: (mid ++ (sweep x todo).2) := by
  intro todo
  induction todo with
  | nil =>
    intro x mid
    rfl
  | cons y ys ih =>
    intro x mid
    show innerLoop pre.length ys.length (pre.length + 1 + mid.length + 1)
      (compareSwap (pre ++ x :: (mid ++ y :: ys)) pre.length (pre.length + 1 + mid.length)) = _
    rw [compareSwap_split]
    by_cases hgt : x.index > y.index
    · have h1 : pre ++ y :: (mid ++ x :: ys) = pre ++ y :: ((mid ++ [x]) ++ ys) := by simp
      have h2 : pre.length + 1 + mid.length + 1 = pre.length + 1 + (mid ++ [x]).length := by
        simp; omega
      rw [if_pos hgt, h1, h2, ih y (mid ++ [x])]
      simp [sweep, hgt]
    · have h1 : pre ++ x :: (mid ++ y :: ys) = pre ++ x :: ((mid ++ [y]) ++ ys) := by simp
      have h2 : pre.length + 1 + mid.length + 1 = pre.length + 1 + (mid ++ [y]).length := by
        simp; omega
      rw [if_neg hgt, h1, h2, ih x (mid ++ [y])]
      simp [sweep, hgt]

theorem sweep_length (l : List indexedSample) :
    ∀ x, (sweep x l).2.length = l.length := by
  induction l with
  | nil => intro x; rfl
  | cons y ys ih =>
    intro x
    unfold sweep
    by_cases hgt : x.index > y.index
    · simp [hgt, ih]
    · simp [hgt, ih]

theorem sweep_perm (l : List indexedSample) :
    ∀ x, ((sweep x l).1 :: (sweep x l).2).Perm (x :: l) := by
  induction l with
  | nil => intro x; exact List.Perm.refl _
  | cons y ys ih =>
    intro x
    unfold sweep
    by_cases hgt : x.index > y.index
    · simp only [hgt, if_true]
      exact ((List.Perm.swap x (sweep y ys).1 (sweep y ys).2).trans
        ((ih y).cons x))
    · simp only [hgt, if_false]
      exact ((List.Perm.swap y (sweep x ys).1 (sweep x ys).2).trans
        ((ih x).cons y)).trans (List.Perm.swap x y ys)

theorem sweep_min (l : List indexedSample) :
    ∀ x, (sweep x l).1.index ≤ x.index ∧ ∀ b ∈ (sweep x l).2, (sweep x l).1.index ≤ b.index := by
  induction l with
  | nil =>
    intro x
    exact ⟨le_refl _, fun b hb => absurd hb (List.not_mem_nil _)⟩
  | cons y ys ih =>
    intro x
    unfold sweep
    by_cases hgt : x.index > y.index
    · simp only [hgt, if_true]
      have := ih y
      refine ⟨by omega, ?_⟩
      intro b hb
      rcases List.mem_cons.mp hb with heq | hin
      · rw [heq]; omega
      · exact this.2 b hin
    · simp only [hgt, if_false]
      have := ih x
      refine ⟨this.1, ?_⟩
      intro b hb
      rcases List.mem_cons.mp hb with heq | hin
      · rw [heq]; omega
      · exact this.2 b hin

theorem outerLoop_sorted :
    ∀ (todo : Nat) (pre rest : List indexedSample), rest.length = todo + 1 →
      pre.Pairwise (fun a b => a.index ≤ b.index) →
      (∀ a ∈ pre, ∀ b ∈ rest, a.index ≤ b.index) →
      (outerLoop todo pre.length (pre ++ rest)).Pairwise (fun a b => a.index ≤ b.index) ∧
        (outerLoop todo pre.length (pre ++ rest)).Perm (pre ++ rest) := by
  intro todo
  induction todo with
  | zero =>
    intro pre rest hlen hsorted hle
    refine ⟨?_, List.Perm.refl _⟩
    show (pre ++ rest).Pairwise _
    rw [List.pairwise_append]
    refine ⟨hsorted, ?_, hle⟩
    match rest, hlen with
    | [z], _ => exact List.pairwise_singleton _ _
  | succ todo ih =>
    intro pre rest hlen hsorted hle
    match rest, hlen with
    | x :: rest1, hlen1 =>
      have hl1 : rest1.length = todo + 1 := by simpa using hlen1
      have hfuel : (pre ++ x :: rest1).length - (pre.length + 1) = rest1.length := by
        simp; omega
      have hinner : innerLoop pre.length ((pre ++ x :: rest1).length - (pre.length + 1))
          (pre.length + 1) (pre ++ x :: rest1)
          = (pre ++ [(sweep x rest1).1]) ++ (sweep x rest1).2 := by
        rw [hfuel]
        have := innerLoop_sweep pre rest1 x []
        simp only [List.length_nil, Nat.add_zero, List.nil_append] at this
        rw [this]
        simp
      have hperm := sweep_perm rest1 x
      have hmin := sweep_min rest1 x
      show (outerLoop todo (pre.length + 1) (innerLoop pre.length
          ((pre ++ x :: rest1).length - (pre.length + 1)) (pre.length + 1)
          (pre ++ x :: rest1))).Pairwise _ ∧
        (outerLoop todo (pre.length + 1) (innerLoop pre.length
          ((pre ++ x :: rest1).length - (pre.length + 1)) (pre.length + 1)
          (pre ++ x :: rest1))).Perm _
      rw [hinner]
      have hplen : pre.length + 1 = (pre ++ [(sweep x rest1).1]).length := by simp
      rw [hplen]
      have hm_mem : (sweep x rest1).1 ∈ x :: rest1 :=
        hperm.subset (List.mem_cons_self _ _)
      have hr := ih (pre ++ [(sweep x rest1).1]) (sweep x rest1).2
        (by rw [sweep_length]; exact hl1)
        (by
          rw [List.pairwise_append]
          refine ⟨hsorted, List.pairwise_singleton _ _, ?_⟩
          intro a ha b hb
          rw [List.mem_singleton.mp hb]
          exact hle a ha _ hm_mem)
        (by
          intro a ha b hb
          rcases List.mem_append.mp ha with hin | hin
          · exact hle a hin b (hperm.subset (List.mem_cons_of_mem _ hb))
          · rw [List.mem_singleton.mp hin]
            exact hmin.2 b hb)
      refine ⟨hr.1, hr.2.trans ?_⟩
      rw [List.append_assoc]
      exact List.Perm.append_left pre hperm

theorem sortSamples_sorted (samples : List indexedSample) :
    (sortSamples samples).Pairwise (fun a b => a.index ≤ b.index) ∧
      (sortSamples samples).Perm samples := by
  unfold sortSamples
  rcases samples with _ | ⟨x, rest⟩
  · exact ⟨List.Pairwise.nil, List.Perm.refl _⟩
  · have := outerLoop_sorted rest.length [] (x :: rest) rfl List.Pairwise.nil
      (fun a ha => absurd ha (List.not_mem_nil _))
    simpa using this

theorem plainStrings_foldl (sampleValues : List Value) (acc : List String) :
    sampleValues.foldl
        (fun examples sv =>
          match sv with
          | .str s => examples ++ [s]
          | _ => examples)
        acc
      = acc ++ stringElements sampleValues := by
  induction sampleValues generalizing acc with
  | nil => simp [stringElements]
  | cons sv rest ih =>
    rw [List.foldl_cons, ih]
    cases sv <;> simp [stringElements]

theorem plainStrings_eq (sampleValues : List Value) :
    plainStrings sampleValues = stringElements sampleValues := by
  have h := plainStrings_foldl sampleValues []
  rw [List.nil_append] at h
  exact h

theorem plainStringsSlice_foldl (sampleValues : List Value) (acc : Slice String)
    (hacc : acc.isNil = false) :
    (sampleValues.foldl
        (fun examples sv =>
          match sv with
          | .str s => examples.append s
          | _ => examples)
        acc).isNil = false ∧
      (sampleValues.foldl
        (fun examples sv =>
          match sv with
          | .str s => examples.append s
          | _ => examples)
        acc).items = acc.items ++ stringElements sampleValues := by
  induction sampleValues generalizing acc with
  | nil => simp [stringElements, hacc]
  | cons sv rest ih =>
    rw [List.foldl_cons]
    cases sv with
    | str s =>
      have := ih (acc.append s) rfl
      refine ⟨this.1, ?_⟩
      rw [this.2]
      simp [Slice.append, stringElements]
    | float f => simpa [stringElements] using ih acc hacc
    | int n => simpa [stringElements] using ih acc hacc
    | arr items => simpa [stringElements] using ih acc hacc
    | obj entries => simpa [stringElements] using ih acc hacc
    | other => simpa [stringElements] using ih acc hacc

theorem extractExamplesSlice_spec (sampleValues : List Value) (componentType : String) :
    (extractExamplesSlice sampleValues componentType).isNil = false ∧
      (extractExamplesSlice sampleValues componentType).items =
        extractExamplesForComponent sampleValues componentType := by
  unfold extractExamplesSlice extractExamplesForComponent
  by_cases hpos : (collectSamples sampleValues componentType).length > 0
  · rw [if_pos hpos, if_pos hpos]
    exact ⟨rfl, rfl⟩
  · rw [if_neg hpos, if_neg hpos, plainStrings_eq]
    have h := plainStringsSlice_foldl sampleValues (Slice.literal []) rfl
    exact ⟨h.1, h.2.trans (List.nil_append _)⟩

theorem broadcastMessageWith_fst {σ : Type} (marshal : M → σ → Except String Bytes × σ)
    (h : Hub M) (msg : BroadcastMessage M) (s : σ) :
    (broadcastMessageWith marshal h msg s).1 =
      broadcastMessage (fun v => (marshal v s).1) h msg := by
  unfold broadcastMessageWith broadcastMessage
  rcases h.clients.lookup msg.OrgID with _ | oc
  · rfl
  · simp only
    rcases hm : marshal msg.Message s with ⟨r, s1⟩
    rcases r with err | data
    · rfl
    · rfl

theorem broadcastMessageWith_snd {σ : Type} (marshal : M → σ → Except String Bytes × σ)
    (h : Hub M) (msg : BroadcastMessage M) (s : σ) {oc : GoMap UUID ClientRef}
    (hl : h.clients.lookup msg.OrgID = some oc) :
    (broadcastMessageWith marshal h msg s).2 = (marshal msg.Message s).2 := by
  unfold broadcastMessageWith
  simp only [hl]
  rcases hm : marshal msg.Message s with ⟨r, s1⟩
  rcases r with err | data
  · rfl
  · rfl

theorem closeSend_identity {mem mem1 : ClientRef → Client} {c : ClientRef}
    (hc : closeSend mem c = .ok mem1) (p : ClientRef) : identity mem1 p = identity mem p := by
  unfold closeSend at hc
  rcases hch : (mem c).send.close with e | ch
  · rw [hch] at hc; exact absurd hc (by simp)
  · rw [hch] at hc
    rw [← Except.ok.inj hc]
    unfold identity setClient
    by_cases hp : p = c
    · simp [hp]
    · simp [hp]

theorem registerClient_identity {h h1 : Hub M} {client : ClientRef}
    (hr : registerClient h client = .ok h1) (p : ClientRef) :
    identity h1.mem p = identity h.mem p := by
  rcases hs : registeredAt h (h.mem client).organizationID (h.mem client).userID with _ | ex
  · rw [registerClient_of_none hs] at hr
    rw [← Except.ok.inj hr]
    rfl
  · rcases ho : (h.mem ex).send.closed with _ | _
    · rw [registerClient_of_open hs ho] at hr
      rw [← Except.ok.inj hr]
      exact closeSend_identity (closeSend_of_open ho) p
    · rw [registerClient_of_closed hs ho] at hr
      exact absurd hr (by simp)

theorem unregisterClient_cases {h h1 : Hub M} {client : ClientRef}
    (hr : unregisterClient h client = .ok h1) :
    (∀ p, identity h1.mem p = identity h.mem p) ∧
      (h1.clients = h.clients ∨
        (registeredAt h (h.mem client).organizationID (h.mem client).userID = some client ∧
          h1.clients =
            registryDrop h.clients (h.mem client).organizationID (h.mem client).userID)) := by
  by_cases hs : registeredAt h (h.mem client).organizationID (h.mem client).userID = some client
  · rcases ho : (h.mem client).send.closed with _ | _
    · rw [unregisterClient_of_open hs ho] at hr
      rw [← Except.ok.inj hr]
      exact ⟨fun p => closeSend_identity (closeSend_of_open ho) p, Or.inr ⟨hs, rfl⟩⟩
    · rw [unregisterClient_of_closed hs ho] at hr
      exact absurd hr (by simp)
  · rw [unregisterClient_of_stale hs] at hr
    rw [← Except.ok.inj hr]
    exact ⟨fun _ => rfl, Or.inl rfl⟩

theorem sendToClient_identity {contactID : UUID} {data : Bytes} {h h1 : Hub M}
    {client : ClientRef} (hs : sendToClient contactID data h client = .ok h1) (p : ClientRef) :
    identity h1.mem p = identity h.mem p := by
  unfold sendToClient at hs
  by_cases hk : skipsClient contactID (h.mem client).currentContact = true
  · rw [if_pos hk] at hs
    rw [← Except.ok.inj hs]
  · rw [if_neg hk] at hs
    rcases ht : (h.mem client).send.trySend data with e | ⟨ch, b⟩
    · rw [ht] at hs; exact absurd hs (by simp)
    · rw [ht] at hs
      cases b
      · simp only at hs
        rw [← Except.ok.inj hs]
      · simp only at hs
        rw [← Except.ok.inj hs]
        unfold identity setClient
        by_cases hp : p = client
        · simp [hp]
        · simp [hp]

theorem fanOut_identity {contactID : UUID} {data : Bytes} :
    ∀ (es : List (UUID × ClientRef)) {h h1 : Hub M},
      fanOut contactID data es h = .ok h1 → ∀ p, identity h1.mem p = identity h.mem p := by
  intro es
  induction es with
  | nil =>
    intro h h1 hf p
    rw [← Except.ok.inj hf]
  | cons e rest ih =>
    intro h h1 hf p
    unfold fanOut at hf
    rcases hs : sendToClient contactID data h e.2 with err | h2
    · rw [hs] at hf; exact absurd hf (by simp)
    · rw [hs] at hf
      exact (ih hf p).trans (sendToClient_identity hs p)

theorem broadcastMessage_identity {marshal : M → Except String Bytes} {h h1 : Hub M}
    {msg : BroadcastMessage M} (hb : broadcastMessage marshal h msg = .ok h1) (p : ClientRef) :
    identity h1.mem p = identity h.mem p := by
  unfold broadcastMessage at hb
  rcases hl : h.clients.lookup msg.OrgID with _ | oc
  · rw [hl] at hb
    rw [← Except.ok.inj hb]
  · rw [hl] at hb
    rcases hm : marshal msg.Message with err | data
    · rw [hm] at hb
      rw [← Except.ok.inj hb]
    · rw [hm] at hb
      exact fanOut_identity _ hb p

theorem step_identity {marshal : M → Except String Bytes} {h h1 : Hub M} {ev : Event M}
    (hs : step marshal h ev = .ok h1) (p : ClientRef) :
    identity h1.mem p = identity h.mem p := by
  cases ev with
  | register d => exact registerClient_identity hs p
  | unregister d => exact (unregisterClient_cases hs).1 p
  | submit msg =>
    have := (Broadcast_clients hs).2
    rw [this]
  | deliver =>
    unfold step at hs
    rcases hq : h.broadcast.buf with _ | ⟨msg, rest⟩
    · rw [hq] at hs
      rw [← Except.ok.inj hs]
    · rw [hq] at hs
      exact broadcastMessage_identity hs p

theorem step_keepsRegistration {marshal : M → Except String Bytes} {h h1 : Hub M}
    {ev : Event M} {c : ClientRef}
    (hreg : registeredAt h (h.mem c).organizationID (h.mem c).userID = some c)
    (hev : ev.keepsRegistration h.mem c = true) (hs : step marshal h ev = .ok h1) :
    registeredAt h1 (h.mem c).organizationID (h.mem c).userID = some c := by
  cases ev with
  | register d =>
    have hd : d = c ∨ identity h.mem d ≠ identity h.mem c := by
      simpa [Event.keepsRegistration] using hev
    unfold registeredAt at hreg ⊢
    rw [registerClient_clients hs, registryFind_store]
    by_cases hk : (h.mem c).organizationID = (h.mem d).organizationID ∧
        (h.mem c).userID = (h.mem d).userID
    · rw [if_pos hk]
      rcases hd with hd | hd
      · rw [hd]
      · exact absurd (by unfold identity; rw [hk.1, hk.2]) hd
    · rw [if_neg hk]
      exact hreg
  | unregister d =>
    have hd : d ≠ c := by simpa [Event.keepsRegistration] using hev
    rcases (unregisterClient_cases hs).2 with hc | ⟨hcur, hc⟩
    · unfold registeredAt at hreg ⊢
      rw [hc]
      exact hreg
    · unfold registeredAt at hreg hcur ⊢
      rw [hc, registryFind_drop]
      by_cases hk : (h.mem c).organizationID = (h.mem d).organizationID ∧
          (h.mem c).userID = (h.mem d).userID
      · rw [hk.1, hk.2, hcur] at hreg
        exact absurd (Option.some.inj hreg) hd
      · rw [if_neg hk]
        exact hreg
  | submit msg =>
    unfold registeredAt at hreg ⊢
    rw [(Broadcast_clients hs).1]
    exact hreg
  | deliver =>
    unfold step at hs
    unfold registeredAt at hreg ⊢
    rcases hq : h.broadcast.buf with _ | ⟨msg, rest⟩
    · rw [hq] at hs
      rw [← Except.ok.inj hs]
      exact hreg
    · rw [hq] at hs
      rw [(broadcastMessage_clients hs).1]
      exact hreg

theorem keepsRegistration_congr {mem mem1 : ClientRef → Client} (c : ClientRef)
    (hid : ∀ p, identity mem1 p = identity mem p) (ev : Event M) :
    ev.keepsRegistration mem1 c = ev.keepsRegistration mem c := by
  cases ev with
  | register d => simp only [Event.keepsRegistration, hid]
  | unregister d => rfl
  | submit msg => rfl
  | deliver => rfl

theorem run_keepsRegistration {marshal : M → Except String Bytes} {c : ClientRef} :
    ∀ (evs : List (Event M)) {h h1 : Hub M},
      registeredAt h (h.mem c).organizationID (h.mem c).userID = some c →
      (∀ ev ∈ evs, ev.keepsRegistration h.mem c = true) →
      run marshal h evs = .ok h1 →
      registeredAt h1 (h.mem c).organizationID (h.mem c).userID = some c := by
  intro evs
  induction evs with
  | nil =>
    intro h h1 hreg _ hr
    unfold run at hr
    rw [← Except.ok.inj hr]
    exact hreg
  | cons ev rest ih =>
    intro h h1 hreg hev hr
    unfold run at hr
    rcases hs : step marshal h ev with e | h2
    · rw [hs] at hr; exact absurd hr (by simp)
    · rw [hs] at hr
      have hid := step_identity hs
      have hc : (h2.mem c).organizationID = (h.mem c).organizationID ∧
          (h2.mem c).userID = (h.mem c).userID := by
        have := hid c
        unfold identity at this
        exact ⟨(Prod.mk.inj this).1, (Prod.mk.inj this).2⟩
      have h2reg := step_keepsRegistration hreg (hev ev (List.mem_cons_self _ _)) hs
      rw [← hc.1, ← hc.2] at h2reg ⊢
      refine ih h2reg ?_ hr
      intro ev1 hmem
      rw [keepsRegistration_congr c hid]
      exact hev ev1 (List.mem_cons_of_mem _ hmem)

theorem char_le_iff (a b : Char) : a ≤ b ↔ a.toNat ≤ b.toNat := by
  rw [Char.le_def]
  exact Iff.rfl


theorem keptRune_of_mem (c : Char) (h : c ∈ allowedRunes) : keptRune c = true := by
  unfold allowedRunes at h
  simp only [List.mem_cons, List.mem_singleton, List.not_mem_nil, or_false] at h
  rcases h with h | h | h | h | h | h | h | h | h | h | h | h | h | h | h | h | h | h | h |
    h | h | h | h | h | h | h | h | h | h | h | h | h | h | h | h | h | h <;> subst h <;> decide

theorem mem_of_keptRune (c : Char) (h : keptRune c = true) : c ∈ allowedRunes := by
  rw [keptRune_iff] at h
  have hc : c = Char.ofNat c.toNat := (Char.ofNat_toNat c).symm
  rcases h with ⟨h1, h2⟩ | ⟨h1, h2⟩ | h
  · rw [char_le_iff] at h1 h2
    have e1 : ('a' : Char).toNat = 97 := rfl
    have e2 : ('z' : Char).toNat = 122 := rfl
    rw [e1] at h1
    rw [e2] at h2
    rw [hc]
    generalize c.toNat = n at h1 h2
    interval_cases n <;> decide
  · rw [char_le_iff] at h1 h2
    have e1 : ('0' : Char).toNat = 48 := rfl
    have e2 : ('9' : Char).toNat = 57 := rfl
    rw [e1] at h1
    rw [e2] at h2
    rw [hc]
    generalize c.toNat = n at h1 h2
    interval_cases n <;> decide
  · subst h
    decide

theorem keptRune_eq_mem : keptRune = fun c => decide (c ∈ allowedRunes) := by
  funext c
  rw [Bool.eq_iff_iff]
  simp only [decide_eq_true_eq]
  exact ⟨mem_of_keptRune c, keptRune_of_mem c⟩

theorem assocFind_eq_lookup {ν : Type} (l : List (String × ν)) (k : String) :
    assocFind l k = List.lookup k l := by
  unfold assocFind
  induction l with
  | nil => rfl
  | cons e t ih =>
    rcases e with ⟨a, b⟩
    by_cases hk : a = k
    · subst hk
      simp [List.find?, List.lookup]
    · have hk2 : ¬ k = a := fun h => hk h.symm
      simp only [List.find?, hk, decide_False, List.lookup]
      have : (k == a) = false := by simpa using hk2
      rw [this]
      exact ih

theorem legacySamples_eq (values : List Value) :
    ∀ (i : Nat) (samples : List indexedSample),
      legacySamples i values samples =
        samples ++ (values.enumFrom i).filterMap
          (fun pv =>
            match pv.2 with
            | .str s => some ⟨(pv.1 : Int) + 1, s⟩
            | _ => none) := by
  induction values with
  | nil => intro i samples; simp [legacySamples]
  | cons v rest ih =>
    intro i samples
    cases v <;> simp [legacySamples, ih, List.enumFrom]

theorem stringField_eq (entries : List (String × Value)) (key : String) :
    stringField entries key =
      match List.lookup key entries with
      | some (.str s) => s
      | _ => "" := by
  unfold stringField
  rw [assocFind_eq_lookup]

theorem sampleIndex_eq (entries : List (String × Value)) :
    sampleIndex entries = entryIndex entries := by
  unfold sampleIndex entryIndex
  rw [assocFind_eq_lookup]

theorem currentSample_eq (componentType : String) (entries : List (String × Value))
    (samples : List indexedSample) :
    (if stringField entries "component" = componentType then
        if stringField entries "value" ≠ "" then
          samples ++ [⟨sampleIndex entries, stringField entries "value"⟩]
        else samples
      else samples) = samples ++ currentSample componentType entries := by
  have hcomp : stringField entries "component" = entryComponent entries := by
    rw [stringField_eq]
    rfl
  rw [hcomp, sampleIndex_eq, stringField_eq entries "value"]
  unfold currentSample
  rcases List.lookup "value" entries with _ | v
  · simp
  · cases v with
    | str s =>
      simp only
      by_cases h1 : entryComponent entries = componentType
      · by_cases h2 : s = ""
        · simp [h1, h2]
        · simp [h1, h2]
      · simp [h1]
    | float f => simp
    | int n => simp
    | arr items => simp
    | obj es => simp
    | other => simp

theorem legacySample_eq (componentType : String) (entries : List (String × Value))
    (samples : List indexedSample) :
    (if componentIs entries componentType then
        match assocFind entries "values" with
        | some (.arr values) => legacySamples 0 values samples
        | _ => samples
      else samples) = samples ++ legacySample componentType entries := by
  unfold componentIs legacySample legacyItems List.enum
  simp only [assocFind_eq_lookup]
  rcases List.lookup "component" entries with _ | c
  · simp
  · cases c with
    | str s =>
      rcases List.lookup "values" entries with _ | vs
      · simp
      · cases vs with
        | arr values =>
          simp only [legacySamples_eq]
          by_cases h1 : s = componentType
          · simp [h1]
          · simp [h1]
        | str s => simp
        | float f => simp
        | int n => simp
        | obj es => simp
        | other => simp
    | float f => simp
    | int n => simp
    | arr items => simp
    | obj es => simp
    | other => simp

theorem collectFrom_eq (componentType : String) (samples : List indexedSample) (sv : Value) :
    collectFrom componentType samples sv = samples ++ entrySamples componentType sv := by
  cases sv with
  | obj entries =>
    unfold collectFrom entrySamples
    simp only
    rw [currentSample_eq]
    have hl := legacySample_eq componentType entries
      (samples ++ currentSample componentType entries)
    rw [List.append_assoc] at hl
    exact hl
  | str s => simp [collectFrom, entrySamples]
  | float f => simp [collectFrom, entrySamples]
  | int n => simp [collectFrom, entrySamples]
  | arr items => simp [collectFrom, entrySamples]
  | other => simp [collectFrom, entrySamples]

theorem collectSamples_foldl (componentType : String) (sampleValues : List Value) :
    ∀ samples : List indexedSample,
      sampleValues.foldl (collectFrom componentType) samples =
        samples ++ matchingSamples sampleValues componentType := by
  induction sampleValues with
  | nil => intro samples; simp [matchingSamples]
  | cons sv rest ih =>
    intro samples
    rw [List.foldl_cons, ih, collectFrom_eq]
    simp [matchingSamples]

theorem collectSamples_eq (sampleValues : List Value) (componentType : String) :
    collectSamples sampleValues componentType = matchingSamples sampleValues componentType := by
  unfold collectSamples
  rw [collectSamples_foldl]
  rfl

end Cases

/-! ## The properties of the hub -/

section Claims

variable {M : Type}

/-- Claim C1: for every sequence of events of a hub created by `NewHub` in which the
connections handed to `register` have pairwise distinct identities (and, being fresh,
open mailboxes), the loop processes the whole sequence and `GetClientCount` then returns
the number of distinct `(organizationID, userID)` pairs of the connections registered and
not yet unregistered. -/
theorem GetClientCount_after_run (marshal : M → Except String Bytes) (mem : ClientRef → Client)
    (evs : List (Event M))
    (hdistinct : ((registrations evs).map (identity mem)).Nodup)
    (hopen : ∀ c ∈ registrations evs, (mem c).send.closed = false) :
    ∃ h, run marshal (NewHub mem) evs = .ok h ∧
      GetClientCount h = ((liveAfter [] evs).map (identity mem)).dedup.length := by
  obtain ⟨h, hr, t⟩ := run_tracks marshal evs (NewHub mem) [] (tracks_newHub mem)
    ⟨hdistinct, fun c _ hin => absurd hin (List.not_mem_nil _), hopen⟩
  refine ⟨h, hr, ?_⟩
  rw [List.Nodup.dedup t.distinct, List.length_map]
  exact t.count

/-- Claim C1 at a concrete sequence: three registrations and one unregistration leave two
connections. -/
theorem GetClientCount_after_run_witness :
    ∃ h, run sampleMarshal (NewHub sampleMem)
        [.register 0, .submit ⟨1, 0, 5⟩, .register 1, .unregister 0, .deliver, .register 2] = .ok h ∧
      GetClientCount h = 2 :=
  GetClientCount_after_run sampleMarshal sampleMem
    [.register 0, .submit ⟨1, 0, 5⟩, .register 1, .unregister 0, .deliver, .register 2]
    (by decide) (by decide)

/-- Claim C2: when `c1` is registered for `(org, user)` with an open mailbox and a second
connection `c2` has the same identity, `registerClient` of `c2` closes the mailbox of `c1`
and changes no other connection (the mailbox of `c2` stays open), makes `c2` the connection
registered for `(org, user)` and leaves `GetClientCount` unchanged. -/
theorem registerClient_evicts_previous (h : Hub M) (c1 c2 : ClientRef) (org user : UUID)
    (hreg : registeredAt h org user = some c1)
    (horg : (h.mem c2).organizationID = org) (huser : (h.mem c2).userID = user)
    (hne : c2 ≠ c1)
    (hopen1 : (h.mem c1).send.closed = false) (hopen2 : (h.mem c2).send.closed = false) :
    ∃ h1, registerClient h c2 = .ok h1 ∧
      h1.mem c1 = closeMailbox (h.mem c1) ∧
      (h1.mem c1).send.closed = true ∧
      (∀ c, c ≠ c1 → h1.mem c = h.mem c) ∧
      (h1.mem c2).send.closed = false ∧
      registeredAt h1 org user = some c2 ∧
      GetClientCount h1 = GetClientCount h := by
  subst horg huser
  refine ⟨_, registerClient_of_open hreg hopen1, ?_, ?_, ?_, ?_, ?_, ?_⟩
  · show setClient h.mem c1 (closeMailbox (h.mem c1)) c1 = _
    rw [setClient_same]
  · show (setClient h.mem c1 (closeMailbox (h.mem c1)) c1).send.closed = true
    rw [setClient_same]; rfl
  · intro c hc
    exact setClient_other _ _ hc
  · show (setClient h.mem c1 (closeMailbox (h.mem c1)) c2).send.closed = false
    rw [setClient_other _ _ hne]; exact hopen2
  · show registryFind (registryStore h.clients _ _ c2) _ _ = some c2
    rw [registryFind_store]; simp
  · show countClients _ = countClients h
    rw [countClients_eq, countClients_eq]
    exact registrySize_store_of_some c2 hreg

/-- Claim C2 at the sample hub: connection 4 replaces connection 0 of the same user. -/
theorem registerClient_evicts_previous_witness :
    ∃ h1, registerClient sampleHub 4 = .ok h1 ∧
      h1.mem 0 = closeMailbox (sampleHub.mem 0) ∧
      (h1.mem 0).send.closed = true ∧
      (∀ c, c ≠ 0 → h1.mem c = sampleHub.mem c) ∧
      (h1.mem 4).send.closed = false ∧
      registeredAt h1 1 0 = some 4 ∧
      GetClientCount h1 = GetClientCount sampleHub :=
  registerClient_evicts_previous sampleHub 0 4 1 0 (by decide) rfl rfl (by decide) rfl rfl

/-- Claim C3: `unregisterClient` of a connection that is not the one registered for its
identity completes and changes neither the registry, nor `GetClientCount`, nor any
connection (no mailbox is closed). -/
theorem unregisterClient_stale_noop (h : Hub M) (c : ClientRef)
    (hstale : registeredAt h (h.mem c).organizationID (h.mem c).userID ≠ some c) :
    ∃ h1, unregisterClient h c = .ok h1 ∧
      h1.clients = h.clients ∧
      GetClientCount h1 = GetClientCount h ∧
      h1.mem = h.mem ∧
      h1.broadcast = h.broadcast :=
  ⟨_, unregisterClient_of_stale hstale, rfl, rfl, rfl, rfl⟩

/-- Claim C3 at the sample hub: connection 4 is not registered, connection 0 holds its
identity. -/
theorem unregisterClient_stale_noop_witness :
    ∃ h1, unregisterClient sampleHub 4 = .ok h1 ∧
      h1.clients = sampleHub.clients ∧
      GetClientCount h1 = GetClientCount sampleHub ∧
      h1.mem = sampleHub.mem ∧
      h1.broadcast = sampleHub.broadcast :=
  unregisterClient_stale_noop sampleHub 4 (by decide)

/-- Claim C4: `unregisterClient` of the connection `c` registered for its identity (its
mailbox open) removes the entry of that identity and no other, closes the mailbox of `c`
and changes no other connection, and decreases `GetClientCount` by one; a second
`unregisterClient` of `c` completes and changes neither the registry, nor the memory, nor
the submission channel. -/
theorem unregisterClient_current (h : Hub M) (c : ClientRef)
    (hcur : registeredAt h (h.mem c).organizationID (h.mem c).userID = some c)
    (hopen : (h.mem c).send.closed = false) :
    ∃ h1, unregisterClient h c = .ok h1 ∧
      registeredAt h1 (h.mem c).organizationID (h.mem c).userID = none ∧
      (∀ org user, ¬ (org = (h.mem c).organizationID ∧ user = (h.mem c).userID) →
        registeredAt h1 org user = registeredAt h org user) ∧
      h1.mem c = closeMailbox (h.mem c) ∧
      (h1.mem c).send.closed = true ∧
      (∀ p, p ≠ c → h1.mem p = h.mem p) ∧
      GetClientCount h1 + 1 = GetClientCount h ∧
      ∃ h2, unregisterClient h1 c = .ok h2 ∧
        h2.clients = h1.clients ∧ h2.mem = h1.mem ∧ h2.broadcast = h1.broadcast := by
  have hid : ∀ m : ClientRef → Client,
      (setClient m c (closeMailbox (m c)) c).organizationID = (m c).organizationID ∧
      (setClient m c (closeMailbox (m c)) c).userID = (m c).userID := by
    intro m; rw [setClient_same]; exact ⟨rfl, rfl⟩
  refine ⟨_, unregisterClient_of_open hcur hopen, ?_, ?_, ?_, ?_, ?_, ?_, ?_⟩
  · show registryFind (registryDrop h.clients _ _) _ _ = none
    rw [registryFind_drop]; simp
  · intro org user hne
    show registryFind (registryDrop h.clients _ _) _ _ = registryFind h.clients org user
    rw [registryFind_drop, if_neg hne]
  · show setClient h.mem c (closeMailbox (h.mem c)) c = _
    rw [setClient_same]
  · show (setClient h.mem c (closeMailbox (h.mem c)) c).send.closed = true
    rw [setClient_same]; rfl
  · intro p hp
    exact setClient_other _ _ hp
  · show countClients _ + 1 = countClients h
    rw [countClients_eq, countClients_eq]
    exact registrySize_drop hcur
  · refine ⟨_, unregisterClient_of_stale ?_, rfl, rfl, rfl⟩
    show registryFind (registryDrop h.clients _ _)
      (setClient h.mem c (closeMailbox (h.mem c)) c).organizationID
      (setClient h.mem c (closeMailbox (h.mem c)) c).userID ≠ some c
    rw [(hid h.mem).1, (hid h.mem).2, registryFind_drop]
    simp

/-- Claim C4 at the sample hub: connection 0 is unregistered, then unregistered again. -/
theorem unregisterClient_current_witness :
    ∃ h1, unregisterClient sampleHub 0 = .ok h1 ∧
      registeredAt h1 1 0 = none ∧
      (∀ org user, ¬ (org = 1 ∧ user = 0) →
        registeredAt h1 org user = registeredAt sampleHub org user) ∧
      h1.mem 0 = closeMailbox (sampleHub.mem 0) ∧
      (h1.mem 0).send.closed = true ∧
      (∀ p, p ≠ 0 → h1.mem p = sampleHub.mem p) ∧
      GetClientCount h1 + 1 = GetClientCount sampleHub ∧
      ∃ h2, unregisterClient h1 0 = .ok h2 ∧
        h2.clients = h1.clients ∧ h2.mem = h1.mem ∧ h2.broadcast = h1.broadcast :=
  unregisterClient_current sampleHub 0 (by decide) rfl

/-- Claim C5: in a hub whose registry entries are filed under the identities of their
connections and hold open mailboxes, an org-scoped broadcast (`ContactID` unset) with a
serializable payload completes, appends the payload to the mailbox of every connection
registered under the target organization whose mailbox is not full, and changes no
connection registered under another organization. -/
theorem broadcastMessage_org_scope (marshal : M → Except String Bytes) (h : Hub M)
    (msg : BroadcastMessage M) (data : Bytes)
    (hscope : msg.ContactID = uuidNil) (hdata : marshal msg.Message = .ok data)
    (hkeys : keysAgree h) (hopen : registeredOpen h) :
    ∃ h1, broadcastMessage marshal h msg = .ok h1 ∧
      (∀ user c, registeredAt h msg.OrgID user = some c → (h.mem c).send.full = false →
        (h1.mem c).send.buf = (h.mem c).send.buf ++ [data]) ∧
      (∀ org user c, org ≠ msg.OrgID → registeredAt h org user = some c →
        h1.mem c = h.mem c) := by
  rcases hl : h.clients.lookup msg.OrgID with _ | oc
  · refine ⟨h, broadcastMessage_of_absent marshal h msg hl, ?_, fun _ _ _ _ _ => rfl⟩
    intro user c hr
    unfold registeredAt registryFind at hr
    rw [hl] at hr
    exact absurd hr (by simp)
  · have hin := GoMap.lookup_eq_some_iff.mp hl
    obtain ⟨h1, hb, -, -, hm⟩ := broadcastMessage_of_open marshal h msg hl
      (hopen _ hin) (values_nodup_of_keysAgree hkeys hin)
    refine ⟨h1, hb, ?_, ?_⟩
    · intro user c hr hfull
      unfold registeredAt registryFind at hr
      rw [hl] at hr
      have hc : c ∈ oc.entries.map Prod.snd :=
        List.mem_map_of_mem Prod.snd (GoMap.lookup_eq_some_iff.mp hr)
      have hlt : (h.mem c).send.buf.length < (h.mem c).send.cap := by
        unfold Chan.full at hfull
        simpa using hfull
      rw [hm]
      unfold afterBroadcast delivered
      simp only [hdata, hc, if_true, hscope, skipsClient_nil, hlt]
      simp
    · intro org user c hne hr
      obtain ⟨oc1, h1in, h2in⟩ := registeredAt_iff_mem.mp hr
      have hid1 := hkeys _ h1in _ h2in
      have hc : c ∉ oc.entries.map Prod.snd := by
        intro hcin
        obtain ⟨e, he, hec⟩ := List.mem_map.mp hcin
        have hid2 := hkeys _ hin e he
        rw [hec] at hid2
        rw [hid2] at hid1
        exact hne (congrArg Prod.fst hid1).symm
      rw [hm]
      unfold afterBroadcast
      simp only [hdata, hc, if_false]

/-- Claim C5 at the sample hub: an org-scoped broadcast of payload 42 to organization 1. -/
theorem broadcastMessage_org_scope_witness :
    ∃ h1, broadcastMessage sampleMarshal sampleHub ⟨1, uuidNil, 42⟩ = .ok h1 ∧
      (∀ user c, registeredAt sampleHub 1 user = some c →
        (sampleHub.mem c).send.full = false →
        (h1.mem c).send.buf = (sampleHub.mem c).send.buf ++ [[42]]) ∧
      (∀ org user c, org ≠ 1 → registeredAt sampleHub org user = some c →
        h1.mem c = sampleHub.mem c) :=
  broadcastMessage_org_scope sampleMarshal sampleHub ⟨1, uuidNil, 42⟩ [42] rfl rfl
    (by decide) (by decide)

/-- Claim C6, the code at a failing input: a broadcast scoped to contact 7 in the sample
hub completes and appends the payload to the mailbox of connection 0, whose current
contact is unset (and to that of connection 1, which views contact 7), while connection 2,
which views contact 8, receives nothing. -/
theorem broadcastMessage_contact_reaches_unfocused :
    ∃ h1, broadcastMessage sampleMarshal sampleHub ⟨1, 7, 42⟩ = .ok h1 ∧
      (sampleHub.mem 0).currentContact = none ∧
      (sampleHub.mem 0).send.buf = [] ∧
      (h1.mem 0).send.buf = [[42]] ∧
      (h1.mem 1).send.buf = [[42]] ∧
      (h1.mem 2).send.buf = [] :=
  ⟨_, rfl, rfl, rfl, rfl, rfl, rfl⟩

/-- Claim C7: in a hub whose registry entries are filed under the identities of their
connections and hold open mailboxes, a broadcast to an organization in which the
connection `s` has a full mailbox completes and leaves `s` unchanged; every matching
connection with room in its mailbox gets the payload appended; and every connection other
than `s` ends exactly as after the same broadcast on the hub from whose registry `s` is
absent. -/
theorem broadcastMessage_saturated (marshal : M → Except String Bytes) (h : Hub M)
    (msg : BroadcastMessage M) (user : UUID) (s : ClientRef)
    (hreg : registeredAt h msg.OrgID user = some s)
    (hfull : (h.mem s).send.full = true)
    (hkeys : keysAgree h) (hopen : registeredOpen h) :
    ∃ h1, broadcastMessage marshal h msg = .ok h1 ∧
      h1.mem s = h.mem s ∧
      (∀ data user1 c, marshal msg.Message = .ok data →
        registeredAt h msg.OrgID user1 = some c →
        skipsClient msg.ContactID (h.mem c).currentContact = false →
        (h.mem c).send.full = false →
        (h1.mem c).send.buf = (h.mem c).send.buf ++ [data]) ∧
      ∃ h2, broadcastMessage marshal
          (h.withRegistry (registryDrop h.clients msg.OrgID user) h.mem) msg = .ok h2 ∧
        ∀ c, c ≠ s → h1.mem c = h2.mem c := by
  have hreg1 := hreg
  unfold registeredAt registryFind at hreg1
  rcases hl : h.clients.lookup msg.OrgID with _ | oc
  · rw [hl] at hreg1; exact absurd hreg1 (by simp)
  rw [hl] at hreg1
  simp only at hreg1
  have hin := GoMap.lookup_eq_some_iff.mp hl
  have hnd := values_nodup_of_keysAgree hkeys hin
  obtain ⟨h1, hb, -, -, hm⟩ := broadcastMessage_of_open marshal h msg hl (hopen _ hin) hnd
  refine ⟨h1, hb, ?_, ?_, ?_⟩
  · rw [hm]
    unfold afterBroadcast
    rcases marshal msg.Message with err | data
    · rfl
    · simp only [delivered_of_full _ _ hfull, ite_self]
  · intro data user1 c hdata hr hskip hnf
    unfold registeredAt registryFind at hr
    rw [hl] at hr
    have hc : c ∈ oc.entries.map Prod.snd :=
      List.mem_map_of_mem Prod.snd (GoMap.lookup_eq_some_iff.mp hr)
    have hlt : (h.mem c).send.buf.length < (h.mem c).send.cap := by
      unfold Chan.full at hnf
      simpa using hnf
    rw [hm]
    unfold afterBroadcast delivered
    simp only [hdata, hc, if_true, hskip, hlt]
    simp
  · have hkey : ∀ c, c ≠ s →
        h1.mem c = afterBroadcast marshal msg ((oc.remove user).entries.map Prod.snd) h.mem c := by
      intro c hc
      rw [hm]
      exact afterBroadcast_congr marshal msg h.mem (mem_values_remove hreg1 hc).symm
    by_cases hz : (oc.remove user).len = 0
    · have hl2 : (h.withRegistry (registryDrop h.clients msg.OrgID user) h.mem).clients.lookup
          msg.OrgID = none := by
        show (registryDrop h.clients msg.OrgID user).lookup msg.OrgID = none
        unfold registryDrop
        simp only [hl, hz, if_true, GoMap.lookup_remove]
      refine ⟨_, broadcastMessage_of_absent marshal _ msg hl2, ?_⟩
      intro c hc
      rw [hkey c hc]
      have : (oc.remove user).entries = [] := List.length_eq_zero.mp hz
      rw [this, List.map_nil, afterBroadcast_nil]
      rfl
    · have hl2 : (h.withRegistry (registryDrop h.clients msg.OrgID user) h.mem).clients.lookup
          msg.OrgID = some (oc.remove user) := by
        show (registryDrop h.clients msg.OrgID user).lookup msg.OrgID = some (oc.remove user)
        unfold registryDrop
        simp only [hl, hz, if_false, GoMap.lookup_store, if_true]
      have hopen2 : ∀ e ∈ (oc.remove user).entries,
          ((h.withRegistry (registryDrop h.clients msg.OrgID user) h.mem).mem e.2).send.closed
            = false :=
        fun e he => hopen _ hin e (List.mem_filter.mp he).1
      have hnd2 : ((oc.remove user).entries.map Prod.snd).Nodup :=
        ((List.filter_sublist oc.entries).map Prod.snd).nodup hnd
      obtain ⟨h2, hb2, -, -, hm2⟩ := broadcastMessage_of_open marshal _ msg hl2 hopen2 hnd2
      refine ⟨h2, hb2, ?_⟩
      intro c hc
      rw [hkey c hc, hm2]
      rfl

/-- Claim C7 at the sample hub: connection 3 has a full mailbox. -/
theorem broadcastMessage_saturated_witness :
    ∃ h1, broadcastMessage sampleMarshal sampleHub ⟨1, uuidNil, 42⟩ = .ok h1 ∧
      h1.mem 3 = sampleHub.mem 3 ∧
      (∀ data user1 c, sampleMarshal 42 = .ok data →
        registeredAt sampleHub 1 user1 = some c →
        skipsClient uuidNil (sampleHub.mem c).currentContact = false →
        (sampleHub.mem c).send.full = false →
        (h1.mem c).send.buf = (sampleHub.mem c).send.buf ++ [data]) ∧
      ∃ h2, broadcastMessage sampleMarshal
          (sampleHub.withRegistry (registryDrop sampleHub.clients 1 3) sampleHub.mem)
          ⟨1, uuidNil, 42⟩ = .ok h2 ∧
        ∀ c, c ≠ 3 → h1.mem c = h2.mem c :=
  broadcastMessage_saturated sampleMarshal sampleHub ⟨1, uuidNil, 42⟩ 3 3 (by decide) rfl
    (by decide) (by decide)

/-- Claim C8: a broadcast whose target organization has no entry in the registry returns
the hub as it was, without panic, whatever the payload and whether it serializes or not. -/
theorem broadcastMessage_absent_org (marshal : M → Except String Bytes) (h : Hub M)
    (msg : BroadcastMessage M) (habsent : h.clients.lookup msg.OrgID = none) :
    broadcastMessage marshal h msg = .ok h :=
  broadcastMessage_of_absent marshal h msg habsent

/-- Claim C8 at the sample hub: organization 5 has no entry and payload 0 does not
serialize. -/
theorem broadcastMessage_absent_org_witness :
    broadcastMessage sampleMarshal sampleHub ⟨5, uuidNil, 0⟩ = .ok sampleHub :=
  broadcastMessage_absent_org sampleMarshal sampleHub ⟨5, uuidNil, 0⟩ rfl

/-- Claim C9: in every hub reached from `NewHub` by register, unregister and broadcast
events, every organization present in the registry maps to a non-empty connection map. -/
theorem noEmptyOrg_reachable (marshal : M → Except String Bytes) (mem : ClientRef → Client)
    (evs : List (Event M)) (h : Hub M) (hrun : run marshal (NewHub mem) evs = .ok h) :
    ∀ org orgClients, h.clients.lookup org = some orgClients → orgClients.len ≠ 0 := by
  have hn : noEmptyOrg h := run_noEmptyOrg evs hrun (fun e he => absurd he (List.not_mem_nil _))
  exact noEmptyOrg_iff.mp hn

/-- Claim C9 at a concrete run in which the last connection of organization 1 is
unregistered. -/
theorem noEmptyOrg_reachable_witness :
    ∃ h, run sampleMarshal (NewHub sampleMem)
        [.register 0, .register 1, .submit ⟨1, 0, 5⟩, .unregister 0, .deliver, .unregister 1]
          = .ok h ∧
      (∀ org orgClients, h.clients.lookup org = some orgClients → orgClients.len ≠ 0) ∧
      h.clients.lookup 1 = none :=
  ⟨_, rfl, noEmptyOrg_reachable sampleMarshal sampleMem
    [.register 0, .register 1, .submit ⟨1, 0, 5⟩, .unregister 0, .deliver, .unregister 1] _ rfl,
    rfl⟩

/-- Claim C10: on every hub reached from `NewHub`, `Broadcast` returns without panic and
without error; with fewer than 256 pending envelopes the envelope is appended at the tail
of the submission queue, and with 256 or more pending the queue is left as it was; the
registry and the memory are untouched in both cases. -/
theorem Broadcast_nonblocking (marshal : M → Except String Bytes) (mem : ClientRef → Client)
    (evs : List (Event M)) (h : Hub M) (msg : BroadcastMessage M)
    (hrun : run marshal (NewHub mem) evs = .ok h) :
    (h.broadcast.buf.length < 256 →
      ∃ h1, Broadcast h msg = .ok h1 ∧ h1.broadcast.buf = h.broadcast.buf ++ [msg] ∧
        h1.clients = h.clients ∧ h1.mem = h.mem ∧ h1.log = h.log) ∧
    (256 ≤ h.broadcast.buf.length →
      ∃ h1, Broadcast h msg = .ok h1 ∧ h1.broadcast = h.broadcast ∧
        h1.clients = h.clients ∧ h1.mem = h.mem) := by
  have hq := run_queue evs hrun
  have hcap : h.broadcast.cap = 256 := hq.1
  have hopen : h.broadcast.closed = false := hq.2
  unfold Broadcast Chan.trySend
  rw [hopen, hcap]
  constructor
  · intro hlt
    simp only [hlt, if_true]
    exact ⟨_, rfl, rfl, rfl, rfl, rfl⟩
  · intro hge
    have : ¬ h.broadcast.buf.length < 256 := by omega
    simp only [this, if_false]
    exact ⟨_, rfl, rfl, rfl, rfl⟩

/-- Claim C10 at a concrete run: a second envelope is submitted behind a pending one. -/
theorem Broadcast_nonblocking_witness :
    ∃ h, run sampleMarshal (NewHub sampleMem) [.register 0, .submit ⟨1, 0, 5⟩] = .ok h ∧
      (h.broadcast.buf.length < 256 →
        ∃ h1, Broadcast h ⟨1, 7, 6⟩ = .ok h1 ∧
          h1.broadcast.buf = h.broadcast.buf ++ [⟨1, 7, 6⟩] ∧
          h1.clients = h.clients ∧ h1.mem = h.mem ∧ h1.log = h.log) ∧
      (256 ≤ h.broadcast.buf.length →
        ∃ h1, Broadcast h ⟨1, 7, 6⟩ = .ok h1 ∧ h1.broadcast = h.broadcast ∧
          h1.clients = h.clients ∧ h1.mem = h.mem) :=
  ⟨_, rfl, Broadcast_nonblocking sampleMarshal sampleMem
    [.register 0, .submit ⟨1, 0, 5⟩] _ ⟨1, 7, 6⟩ rfl⟩

/-- Claim C11: for a broadcast to an organization that has an entry in the registry, with
a payload that serializes, `json.Marshal` is called exactly once, on the envelope's
`Message`: an encoder with a state of its own is left in the state after that one call,
and an encoder that records its calls has recorded that one call; the outcome is that of
`broadcastMessage` for the result of that call; and in a hub whose registry entries are
filed under the identities of their connections and hold open mailboxes, the broadcast
completes and every connection it changes has the bytes of that one call appended to its
mailbox. -/
theorem broadcastMessage_serializes_once {σ : Type}
    (marshal : M → σ → Except String Bytes × σ) (h : Hub M) (msg : BroadcastMessage M)
    (s s1 : σ) (data : Bytes) (orgClients : GoMap UUID ClientRef)
    (horg : h.clients.lookup msg.OrgID = some orgClients)
    (hdata : marshal msg.Message s = (.ok data, s1)) :
    (broadcastMessageWith marshal h msg s).2 = s1 ∧
      (∀ calls, (broadcastMessageWith (recording marshal) h msg (s, calls)).2 =
        (s1, calls ++ [msg.Message])) ∧
      (broadcastMessageWith marshal h msg s).1 =
        broadcastMessage (fun v => (marshal v s).1) h msg ∧
      (keysAgree h → registeredOpen h →
        ∃ h1, (broadcastMessageWith marshal h msg s).1 = .ok h1 ∧
          (∀ c ∈ orgClients.entries.map Prod.snd,
            h1.mem c = delivered msg.ContactID data (h.mem c)) ∧
          ∀ c, h1.mem c = h.mem c ∨ (h1.mem c).send.buf = (h.mem c).send.buf ++ [data]) := by
  refine ⟨?_, ?_, broadcastMessageWith_fst marshal h msg s, ?_⟩
  · rw [broadcastMessageWith_snd marshal h msg s horg, hdata]
  · intro calls
    rw [broadcastMessageWith_snd (recording marshal) h msg (s, calls) horg]
    unfold recording
    simp only [hdata]
  · intro hkeys hopen
    have hin := GoMap.lookup_eq_some_iff.mp horg
    obtain ⟨h1, hf, -, -, hm⟩ := fanOut_of_open msg.ContactID data orgClients.entries h
      (hopen _ hin) (values_nodup_of_keysAgree hkeys hin)
    refine ⟨h1, ?_, ?_, ?_⟩
    · unfold broadcastMessageWith
      simp only [horg, hdata]
      exact hf
    · intro c hc
      rw [hm c, if_pos hc]
    · intro c
      rw [hm c]
      by_cases hc : c ∈ orgClients.entries.map Prod.snd
      · rw [if_pos hc]
        exact delivered_cases msg.ContactID data (h.mem c)
      · rw [if_neg hc]
        exact Or.inl rfl

/-- Claim C11 at the sample hub, with the encoder that numbers its calls: an org-scoped
broadcast of payload 42 to organization 1 leaves the encoder after its first call, and
the connections 0, 1 and 2 receive the bytes of that call (the mailbox of connection 3 is
full). -/
theorem broadcastMessage_serializes_once_witness :
    ∃ orgClients, sampleHub.clients.lookup 1 = some orgClients ∧
      sampleEncoder 42 0 = (.ok [42, 0], 1) ∧ keysAgree sampleHub ∧ registeredOpen sampleHub ∧
      ((broadcastMessageWith sampleEncoder sampleHub ⟨1, uuidNil, 42⟩ 0).1.toOption.map
          (fun h1 => [0, 1, 2, 3].map (fun c => (h1.mem c).send.buf)) =
        some [[[42, 0]], [[42, 0]], [[42, 0]], [[9]]]) ∧
      (broadcastMessageWith sampleEncoder sampleHub ⟨1, uuidNil, 42⟩ 0).2 = 1 ∧
      (∀ calls,
        (broadcastMessageWith (recording sampleEncoder) sampleHub ⟨1, uuidNil, 42⟩
          (0, calls)).2 = (1, calls ++ [42])) ∧
      (broadcastMessageWith sampleEncoder sampleHub ⟨1, uuidNil, 42⟩ 0).1 =
        broadcastMessage (fun v => (sampleEncoder v 0).1) sampleHub ⟨1, uuidNil, 42⟩ ∧
      (keysAgree sampleHub → registeredOpen sampleHub →
        ∃ h1, (broadcastMessageWith sampleEncoder sampleHub ⟨1, uuidNil, 42⟩ 0).1 = .ok h1 ∧
          (∀ c ∈ orgClients.entries.map Prod.snd,
            h1.mem c = delivered uuidNil [42, 0] (sampleHub.mem c)) ∧
          ∀ c, h1.mem c = sampleHub.mem c ∨
            (h1.mem c).send.buf = (sampleHub.mem c).send.buf ++ [[42, 0]]) :=
  ⟨_, rfl, rfl, by decide, by decide, rfl,
    broadcastMessage_serializes_once sampleEncoder sampleHub ⟨1, uuidNil, 42⟩ 0 1 [42, 0] _
      rfl rfl⟩

/-- Claim C12, the scenario run on the code, with A, B, A2 the connections 0, 1, 2 of
`scenarioMem`, O1 organization 1 and C1 contact 9: the org-scoped broadcast reaches A and
B; registering A2 closes the mailbox of A and the count stays 2; after B views contact 9,
the broadcast scoped to contact 9 is enqueued on the mailbox of B and also on that of A2,
which views nothing; unregistering B brings the count to 1 and the last org-scoped
broadcast reaches A2 only. -/
theorem scenario_focus_broadcast_reaches_unfocused :
    ∃ h1 h2 h3 h4 h5,
      run sampleMarshal (NewHub scenarioMem)
        [.register 0, .register 1, .submit ⟨1, uuidNil, 11⟩, .deliver] = .ok h1 ∧
      (h1.mem 0).send.buf = [[11]] ∧ (h1.mem 1).send.buf = [[11]] ∧
      registerClient h1 2 = .ok h2 ∧
      (h2.mem 0).send.closed = true ∧ GetClientCount h2 = 2 ∧
      run sampleMarshal (setCurrentContact h2 1 (some 9)) [.submit ⟨1, 9, 12⟩, .deliver]
        = .ok h3 ∧
      (h3.mem 1).send.buf = [[11], [12]] ∧
      (h3.mem 2).currentContact = none ∧ (h3.mem 2).send.buf = [[12]] ∧
      unregisterClient h3 1 = .ok h4 ∧
      GetClientCount h4 = 1 ∧
      run sampleMarshal h4 [.submit ⟨1, uuidNil, 13⟩, .deliver] = .ok h5 ∧
      (h5.mem 2).send.buf = [[12], [13]] ∧ (h5.mem 1).send.buf = [[11], [12]] ∧
      (h5.mem 0).send.buf = [[11]] :=
  ⟨_, _, _, _, _, rfl, rfl, rfl, rfl, rfl, rfl, rfl, rfl, rfl, rfl, rfl, rfl, rfl, rfl, rfl, rfl⟩

/-- Claim C13: with a parser that returns no error only for a valid token (what
`jwt.ParseWithClaims` does), `WebSocketHandler` answers 401, and so registers no client,
when the token argument is empty, when the parse returns an error and when the parsed
token is not valid; and when it registers a client, the token is not empty, parsed
without error and is valid, and the client is built for the user ID and organization ID
of its claims. -/
theorem WebSocketHandler_auth (parse : String → ParseResult) (upgradeOk : Bool)
    (token : String)
    (hlib : ∀ s, (parse s).err = none → (parse s).token.Valid = true) :
    ((token = "" ∨ (parse token).err ≠ none ∨ (parse token).token.Valid = false) →
      ∃ message, WebSocketHandler parse upgradeOk token = .unauthorized message) ∧
    (∀ userID orgID, WebSocketHandler parse upgradeOk token = .registered userID orgID →
      token ≠ "" ∧ (parse token).err = none ∧ (parse token).token.Valid = true ∧
      ∃ claims, (parse token).token.Claims = some claims ∧
        userID = claims.UserID ∧ orgID = claims.OrganizationID) := by
  constructor
  · intro hbad
    unfold WebSocketHandler
    by_cases ht : token = ""
    · exact ⟨_, if_pos ht⟩
    · rw [if_neg ht]
      have herr : (parse token).err ≠ none := by
        rcases hbad with h1 | h1 | h1
        · exact absurd h1 ht
        · exact h1
        · intro hn
          rw [hlib token hn] at h1
          exact absurd h1 (by simp)
      unfold validateWSToken
      rw [if_pos (Or.inl herr)]
      rcases he : (parse token).err with _ | e
      · exact absurd he herr
      · exact ⟨_, rfl⟩
  · intro userID orgID hr
    unfold WebSocketHandler at hr
    by_cases ht : token = ""
    · rw [if_pos ht] at hr
      exact absurd hr (by simp)
    · rw [if_neg ht] at hr
      unfold validateWSToken at hr
      by_cases hbad : (parse token).err ≠ none ∨ (parse token).token.Valid = false
      · rw [if_pos hbad] at hr
        rcases he : (parse token).err with _ | e
        · rcases hbad with h1 | h1
          · exact absurd he h1
          · rw [hlib token he] at h1
            exact absurd h1 (by simp)
        · rw [he] at hr
          exact absurd hr (by simp)
      · rw [if_neg hbad] at hr
        have herr : (parse token).err = none := by
          by_contra hne
          exact hbad (Or.inl hne)
        have hvalid : (parse token).token.Valid = true := hlib token herr
        rcases hc : (parse token).token.Claims with _ | claims
        · rw [hc] at hr
          exact absurd hr (by simp)
        · rw [hc] at hr
          simp only at hr
          cases upgradeOk
          · exact absurd hr (by simp)
          · simp only [if_true] at hr
            injection hr with h1 h2
            exact ⟨ht, herr, hvalid, claims, rfl, h1.symm, h2.symm⟩

/-- Claim C13 at the sample parser: the token `bad` is answered 401 and the token `good`
registers a client for user 7 of organization 1. -/
theorem WebSocketHandler_auth_witness :
    (∃ message, WebSocketHandler sampleParse true "bad" = .unauthorized message) ∧
      WebSocketHandler sampleParse true "" = .unauthorized "Missing token" ∧
      WebSocketHandler sampleParse true "good" = .registered 7 1 :=
  ⟨(WebSocketHandler_auth sampleParse true "bad"
      (fun s => by unfold sampleParse; split <;> simp)).1 (Or.inr (Or.inl (by decide))),
    by decide, by decide⟩

/-- Claim C14, as the code has it: after `registerClient` of `c` has returned, every hub
reached through events none of which replaces or removes that registration (calls of
`Broadcast`, broadcast cases of the loop, and hand-overs by `Register` and `Unregister`
other than an `Unregister` of `c` and a `Register` of another connection with the identity
of `c`) still holds `c` as the connection of its identity, so every broadcast processed
there, in particular every one submitted after the registration, is computed against a
registry that contains it; and the envelopes are processed in the order of their
submission: `Broadcast` appends at the tail of the pending envelopes and the loop
processes the head. -/
theorem later_broadcasts_see_registration (marshal : M → Except String Bytes)
    (h h1 h2 : Hub M) (c : ClientRef) (evs : List (Event M))
    (hreg : registerClient h c = .ok h1)
    (hevs : ∀ ev ∈ evs, ev.keepsRegistration h.mem c = true)
    (hrun : run marshal h1 evs = .ok h2) :
    registeredAt h2 (h.mem c).organizationID (h.mem c).userID = some c ∧
      (∀ msg, h2.broadcast.closed = false → h2.broadcast.full = false →
        ∃ h3, step marshal h2 (.submit msg) = .ok h3 ∧
          h3.broadcast.buf = h2.broadcast.buf ++ [msg] ∧ h3.clients = h2.clients) ∧
      (∀ msg rest, h2.broadcast.buf = msg :: rest →
        step marshal h2 .deliver =
          broadcastMessage marshal
            { h2 with broadcast := { h2.broadcast with buf := rest } } msg) := by
  refine ⟨?_, ?_, ?_⟩
  · have hid := registerClient_identity hreg
    have hc : (h1.mem c).organizationID = (h.mem c).organizationID ∧
        (h1.mem c).userID = (h.mem c).userID := by
      have := hid c
      unfold identity at this
      exact ⟨(Prod.mk.inj this).1, (Prod.mk.inj this).2⟩
    have h1reg : registeredAt h1 (h1.mem c).organizationID (h1.mem c).userID = some c := by
      unfold registeredAt
      rw [hc.1, hc.2, registerClient_clients hreg, registryFind_store]
      simp
    rw [← hc.1, ← hc.2]
    refine run_keepsRegistration evs h1reg ?_ hrun
    intro ev hmem
    rw [keepsRegistration_congr c hid]
    exact hevs ev hmem
  · intro msg hopen hfull
    have hl : h2.broadcast.buf.length < h2.broadcast.cap := by
      unfold Chan.full at hfull
      simpa using hfull
    show ∃ h3, Broadcast h2 msg = .ok h3 ∧ _
    unfold Broadcast Chan.trySend
    simp only [hopen, hl, if_true, Bool.false_eq_true, if_false]
    exact ⟨_, rfl, rfl, rfl⟩
  · intro msg rest hq
    unfold step
    simp only [hq]

/-- Claim C14 at a concrete run: connection 0 is registered; then connection 1 of another
user is registered, an envelope is submitted, connection 1 is unregistered and the envelope
is processed; connection 0 is still registered and receives the payload. -/
theorem later_broadcasts_see_registration_witness :
    ∃ h1 h2, registerClient (NewHub scenarioMem) 0 = .ok h1 ∧
      run sampleMarshal h1
        [.register 1, .submit ⟨1, uuidNil, 11⟩, .unregister 1, .deliver] = .ok h2 ∧
      registeredAt h2 1 0 = some 0 ∧ (h2.mem 0).send.buf = [[11]] :=
  ⟨_, _, rfl, rfl,
    (later_broadcasts_see_registration sampleMarshal (NewHub scenarioMem) _ _ 0
      [.register 1, .submit ⟨1, uuidNil, 11⟩, .unregister 1, .deliver] rfl (by decide) rfl).1,
    rfl⟩

/-- Claim C14 fails across request kinds: an envelope for organization 1 is submitted to
the empty hub and connection 0 is registered afterwards; the loop, whose `select` is free
to take the registration first, then processes the envelope, and the connection registered
after the submission receives the payload, which it does not when the two requests are
processed in the order of their submission. -/
theorem earlier_broadcast_processed_after_registration :
    ∃ h0 h h1, Broadcast (NewHub scenarioMem) ⟨1, uuidNil, 11⟩ = .ok h0 ∧
      registeredAt h0 1 0 = none ∧
      run sampleMarshal h0 [.register 0, .deliver] = .ok h ∧
      (h.mem 0).send.buf = [[11]] ∧
      run sampleMarshal h0 [.deliver, .register 0] = .ok h1 ∧
      (h1.mem 0).send.buf = [] :=
  ⟨_, _, _, rfl, rfl, rfl, rfl, rfl, rfl⟩

/-- Claim C15, as the code has it: every `registerClient` that returns (including one that
evicts a prior connection, which logs nothing more) and every `unregisterClient` that
returns appends one event carrying the user id and org id of the connection and the client
count of the hub after the step; a payload dropped for a full mailbox leaves a warning
carrying the user id and org id of that connection and no count; an envelope dropped for a
full submission channel leaves a warning carrying no key at all. -/
theorem log_events (marshal : M → Except String Bytes) (h : Hub M) :
    (∀ client h1, registerClient h client = .ok h1 →
      h1.log = h.log ++ [clientEvent "WebSocket client registered" h1 client]) ∧
    (∀ client h1, unregisterClient h client = .ok h1 →
      h1.log = h.log ++ [clientEvent "WebSocket client unregistered" h1 client]) ∧
    (∀ msg data user c, marshal msg.Message = .ok data →
      keysAgree h → registeredOpen h →
      registeredAt h msg.OrgID user = some c →
      skipsClient msg.ContactID (h.mem c).currentContact = false →
      (h.mem c).send.full = true →
      ∃ h1, broadcastMessage marshal h msg = .ok h1 ∧ mailboxFullEvent (h.mem c) ∈ h1.log) ∧
    (∀ msg, h.broadcast.closed = false → h.broadcast.full = true →
      ∃ h1, Broadcast h msg = .ok h1 ∧ h1.log = h.log ++ [queueFullEvent]) := by
  refine ⟨fun client h1 hr => (registerClient_log hr).1,
    fun client h1 hr => (unregisterClient_log hr).1, ?_, ?_⟩
  · intro msg data user c hdata hkeys hopen hreg hskip hfull
    have hreg1 := hreg
    unfold registeredAt registryFind at hreg1
    rcases hl : h.clients.lookup msg.OrgID with _ | oc
    · rw [hl] at hreg1; exact absurd hreg1 (by simp)
    rw [hl] at hreg1
    simp only at hreg1
    have hin := GoMap.lookup_eq_some_iff.mp hl
    have hnd := values_nodup_of_keysAgree hkeys hin
    obtain ⟨h1, hb, -, -, -⟩ := broadcastMessage_of_open marshal h msg hl (hopen _ hin) hnd
    refine ⟨h1, hb, ?_⟩
    have hf : fanOut msg.ContactID data oc.entries h = .ok h1 := by
      unfold broadcastMessage at hb
      simp only [hl, hdata] at hb
      exact hb
    exact (fanOut_log msg.ContactID data oc.entries h h1 (hopen _ hin) hnd hf).2
      (user, c) (GoMap.lookup_eq_some_iff.mp hreg1) hskip hfull
  · intro msg hopen hfull
    unfold Broadcast Chan.trySend
    have hl : ¬ h.broadcast.buf.length < h.broadcast.cap := by
      unfold Chan.full at hfull
      simp only [decide_eq_true_eq] at hfull
      omega
    simp only [hopen, hl, if_false, Bool.false_eq_true]
    exact ⟨_, rfl, rfl⟩

/-- Claim C15 at the sample hub: the registration of connection 4 (which evicts
connection 0) and the unregistration of connection 1 log the count, 4 and 3; the payload
dropped for the full mailbox of connection 3 leaves the warning without count. -/
theorem log_events_witness :
    (∃ h1, registerClient sampleHub 4 = .ok h1 ∧
      h1.log = [LogEvent.mk .info "WebSocket client registered"
        [("user_id", .id 0), ("org_id", .id 1), ("total_clients", .count 4)]]) ∧
    (∃ h1, unregisterClient sampleHub 1 = .ok h1 ∧
      h1.log = [LogEvent.mk .info "WebSocket client unregistered"
        [("user_id", .id 1), ("org_id", .id 1), ("total_clients", .count 3)]]) ∧
    (∃ h1, broadcastMessage sampleMarshal sampleHub ⟨1, uuidNil, 42⟩ = .ok h1 ∧
      mailboxFullEvent (sampleHub.mem 3) ∈ h1.log) :=
  ⟨⟨_, rfl, (log_events sampleMarshal sampleHub).1 4 _ rfl⟩,
   ⟨_, rfl, (log_events sampleMarshal sampleHub).2.1 1 _ rfl⟩,
   (log_events sampleMarshal sampleHub).2.2.1 ⟨1, uuidNil, 42⟩ [42] 3 3 rfl
     (by decide) (by decide) (by decide) rfl rfl⟩

/-- Claim C15 fails on dropped broadcasts: in the sample hub the payload dropped for the
full mailbox of connection 3 leaves exactly one event, and no event of the log has a
`total_clients` key. -/
theorem dropped_broadcast_logs_no_count :
    ∃ h1, broadcastMessage sampleMarshal sampleHub ⟨1, uuidNil, 42⟩ = .ok h1 ∧
      h1.log = [LogEvent.mk .warn "Client send buffer full, skipping"
        [("user_id", .id 3), ("org_id", .id 1)]] ∧
      ∀ ev ∈ h1.log, ∀ f ∈ ev.fields, f.1 ≠ "total_clients" :=
  ⟨_, rfl, rfl, by decide⟩

/-- Claim C16: when the connections handed to `register` are pairwise distinct objects
(none is registered twice) with open mailboxes, the loop processes every initial segment
of the event sequence from `NewHub` without panic, that is without closing a closed
mailbox or sending on one, and in the hub it reaches every connection of the registry has
an open mailbox. -/
theorem run_never_panics (marshal : M → Except String Bytes) (mem : ClientRef → Client)
    (evs : List (Event M))
    (hfresh : (registrations evs).Nodup)
    (hopen : ∀ c ∈ registrations evs, (mem c).send.closed = false) :
    ∀ done todo, done ++ todo = evs →
      ∃ h, run marshal (NewHub mem) done = .ok h ∧ registeredOpen h := by
  intro done todo hsplit
  have hregs : registrations evs = registrations done ++ registrations todo := by
    rw [← hsplit, registrations_append]
  rw [hregs] at hfresh hopen
  refine run_safe marshal done (NewHub mem) [] ⟨?_, rfl⟩
    ⟨(List.nodup_append.mp hfresh).1, fun c _ hin => absurd hin (List.not_mem_nil _),
      fun c hc => hopen c (List.mem_append_left _ hc)⟩
  intro org user c hr
  exact absurd hr (by simp [registeredAt, registryFind, NewHub, GoMap.lookup_empty])

/-- Claim C16 at a concrete run of the scenario connections, in which connection 2 evicts
connection 0 and connection 0 is then unregistered. -/
theorem run_never_panics_witness :
    ∃ h, run sampleMarshal (NewHub scenarioMem)
        [.register 0, .register 1, .register 2, .submit ⟨1, 0, 5⟩, .unregister 0, .deliver]
          = .ok h ∧ registeredOpen h :=
  run_never_panics sampleMarshal scenarioMem
    [.register 0, .register 1, .register 2, .submit ⟨1, 0, 5⟩, .unregister 0, .deliver,
      .unregister 1]
    (by decide) (by decide)
    [.register 0, .register 1, .register 2, .submit ⟨1, 0, 5⟩, .unregister 0, .deliver]
    [.unregister 1] rfl

/-- Claim C17: `BroadcastToContact` with the nil UUID as contact submits the very envelope
`BroadcastToOrg` submits (whose `ContactID` keeps its zero value, the nil UUID), so on every
hub the two calls return the same hub and the loop later runs the same `broadcastMessage`;
and the filter of that fan-out skips no client, whatever contact the client views. -/
theorem BroadcastToContact_nil (h : Hub M) (org : UUID) (m : M) :
    BroadcastToContact h org uuidNil m = BroadcastToOrg h org m ∧
      ∀ viewing : Option UUID, skipsClient uuidNil viewing = false :=
  ⟨rfl, skipsClient_nil⟩

/-- Claim C18: when `json.Marshal` fails on the payload, `broadcastMessage` completes and
changes neither the registry, nor any connection, nor the submission channel. -/
theorem broadcastMessage_marshal_failure (marshal : M → Except String Bytes) (h : Hub M)
    (msg : BroadcastMessage M) (err : String) (hfail : marshal msg.Message = .error err) :
    ∃ h1, broadcastMessage marshal h msg = .ok h1 ∧
      h1.mem = h.mem ∧ h1.clients = h.clients ∧ h1.broadcast = h.broadcast := by
  unfold broadcastMessage
  rcases h.clients.lookup msg.OrgID with _ | oc
  · exact ⟨h, rfl, rfl, rfl, rfl⟩
  · simp only [hfail]
    exact ⟨_, rfl, rfl, rfl, rfl⟩

/-- Claim C18 at the sample hub: payload 0 does not serialize. -/
theorem broadcastMessage_marshal_failure_witness :
    ∃ h1, broadcastMessage sampleMarshal sampleHub ⟨1, uuidNil, 0⟩ = .ok h1 ∧
      h1.mem = sampleHub.mem ∧ h1.clients = sampleHub.clients ∧
      h1.broadcast = sampleHub.broadcast :=
  broadcastMessage_marshal_failure sampleMarshal sampleHub ⟨1, uuidNil, 0⟩
    "unsupported value" rfl

/-- Claim C19: for every input, every rune of the result of `normalizeTemplateName` is one
of `a`-`z`, `0`-`9` and `_`, and the result is the input with every rune lower-cased,
every space and every hyphen replaced by an underscore and the runes outside that set
removed, in the order of the input. -/
theorem normalizeTemplateName_normal (lower : Char → Char) (name : GoString) :
    (∀ c ∈ normalizeTemplateName lower name,
      ('a' ≤ c ∧ c ≤ 'z') ∨ ('0' ≤ c ∧ c ≤ '9') ∨ c = '_') ∧
      (∀ c ∈ normalizeTemplateName lower name, c ∈ allowedRunes) ∧
      normalizeTemplateName lower name = normalizedName lower name := by
  have heq : normalizeTemplateName lower name = normalizedName lower name := by
    unfold normalizeTemplateName normalizedName toLower replaceAll
    simp only [foldl_keep_eq_filter, List.nil_append, List.map_map]
    rw [keptRune_eq_mem]
    congr 1
    apply List.map_congr_left
    intro c _
    simp only [Function.comp]
    by_cases h1 : lower c = ' '
    · simp [h1]
    · by_cases h2 : lower c = '-'
      · simp [h2]
      · simp [h1, h2]
  have hmem : ∀ c ∈ normalizeTemplateName lower name, c ∈ allowedRunes := by
    intro c hc
    rw [heq] at hc
    unfold normalizedName at hc
    exact of_decide_eq_true (List.mem_filter.mp hc).2
  exact ⟨fun c hc => (keptRune_iff c).mp (keptRune_of_mem c (hmem c hc)), hmem, heq⟩

/-- Claim C19 at the name `Hello World-1!`, with the ASCII lower-casing of runes: the
result is `hello_world_1`, which is also what the property gives. -/
theorem normalizeTemplateName_normal_witness :
    normalizeTemplateName Char.toLower "Hello World-1!".toList = "hello_world_1".toList ∧
      normalizedName Char.toLower "Hello World-1!".toList = "hello_world_1".toList :=
  ⟨by decide,
    (normalizeTemplateName_normal Char.toLower "Hello World-1!".toList).2.2.symm.trans
      (by decide)⟩

/-- Claim C20, as the code has it: for every sample-values array that has a sample for the
requested component (an entry for the component with a non-empty string `value`, taken
with the number under its `index` or with 1 when it has none, or a string item of the
legacy `values` array of an entry whose `component` is the requested string, taken with
its position plus one), `extractExamplesForComponent` returns the values of exactly these
samples, rearranged (a permutation of them) so that their indices are in non-decreasing
order. -/
theorem extractExamples_sorted (sampleValues : List Value) (componentType : String)
    (hsome : matchingSamples sampleValues componentType ≠ []) :
    ∃ sorted : List indexedSample,
      sorted.Perm (matchingSamples sampleValues componentType) ∧
      sorted.Pairwise (fun a b => a.index ≤ b.index) ∧
      extractExamplesForComponent sampleValues componentType =
        sorted.map indexedSample.value := by
  have heq := collectSamples_eq sampleValues componentType
  have hs := sortSamples_sorted (collectSamples sampleValues componentType)
  refine ⟨sortSamples (collectSamples sampleValues componentType), ?_, hs.1, ?_⟩
  · rw [← heq]
    exact hs.2
  · unfold extractExamplesForComponent
    rw [if_pos (List.length_pos.mpr (by rw [heq]; exact hsome))]

/-- Claim C20 at the array `sampleValuesMixed` and the component `body`: the samples are
`c` with index 3, `a` with the default index 1, `x` and `z` of the legacy array with
indices 1 and 3, and `b` with index 2; the entry of `header` and the plain string give
none; the result lists them by index. -/
theorem extractExamples_sorted_witness :
    matchingSamples sampleValuesMixed "body" =
        [⟨3, "c"⟩, ⟨1, "a"⟩, ⟨1, "x"⟩, ⟨3, "z"⟩, ⟨2, "b"⟩] ∧
      extractExamplesForComponent sampleValuesMixed "body" = ["a", "x", "b", "z", "c"] ∧
      ∃ sorted : List indexedSample,
        sorted.Perm (matchingSamples sampleValuesMixed "body") ∧
        sorted.Pairwise (fun a b => a.index ≤ b.index) ∧
        extractExamplesForComponent sampleValuesMixed "body" =
          sorted.map indexedSample.value :=
  ⟨by decide, by decide, extractExamples_sorted sampleValuesMixed "body" (by decide)⟩

/-- Claim C20 fails when the matching entries yield no sample: `sampleValuesEmpty` has an
entry for `body`, but its value is empty, so the array has no sample for `body`; the
function then falls back to the plain strings of the array instead of returning the
(empty) list of the values of the matching samples. -/
theorem extractExamples_falls_back :
    (∃ entries, Value.obj entries ∈ sampleValuesEmpty ∧
        List.lookup "component" entries = some (.str "body")) ∧
      matchingSamples sampleValuesEmpty "body" = [] ∧
      extractExamplesForComponent sampleValuesEmpty "body" = ["x"] :=
  ⟨⟨_, List.mem_cons_self _ _, rfl⟩, by decide, by decide⟩

/-- Claim C21: for every sample-values array from which no sample is collected for the
requested component, `extractExamplesForComponent` returns exactly the elements of the
array that are plain strings, in their order; the slice it returns is not `nil`, also when
it is empty; and the result is the same for every other component from which no sample is
collected. -/
theorem extractExamples_fallback (sampleValues : List Value) (componentType : String)
    (hnone : collectSamples sampleValues componentType = []) :
    extractExamplesForComponent sampleValues componentType = stringElements sampleValues ∧
      (extractExamplesSlice sampleValues componentType).items = stringElements sampleValues ∧
      (extractExamplesSlice sampleValues componentType).isNil = false ∧
      ∀ other, collectSamples sampleValues other = [] →
        extractExamplesForComponent sampleValues other =
          extractExamplesForComponent sampleValues componentType := by
  have hfall : ∀ ct, collectSamples sampleValues ct = [] →
      extractExamplesForComponent sampleValues ct = stringElements sampleValues := by
    intro ct hct
    unfold extractExamplesForComponent
    rw [hct, if_neg (by simp), plainStrings_eq]
  have hslice := extractExamplesSlice_spec sampleValues componentType
  refine ⟨hfall _ hnone, ?_, hslice.1, ?_⟩
  · rw [hslice.2, hfall _ hnone]
  · intro other hother
    rw [hfall _ hother, hfall _ hnone]

/-- Claim C21 at the array `sampleValuesEmpty`, whose entry for `body` has an empty value:
the result is its one plain string. -/
theorem extractExamples_fallback_witness :
    extractExamplesForComponent sampleValuesEmpty "body" = ["x"] ∧
      (extractExamplesSlice sampleValuesEmpty "body").items = ["x"] ∧
      (extractExamplesSlice sampleValuesEmpty "body").isNil = false ∧
      ∀ other, collectSamples sampleValuesEmpty other = [] →
        extractExamplesForComponent sampleValuesEmpty other =
          extractExamplesForComponent sampleValuesEmpty "body" :=
  extractExamples_fallback sampleValuesEmpty "body" (by decide)

end Claims

end WhatsappCRM
